import Mathlib

/-!
Verification of the polite, resumable frontier crawler of this repository
(`src/ragchat/crawl.py` plus the `scripts/crawl_pdfs*.py` variants).

The Python code is shallowly embedded: pure helpers become Lean functions on
`List Char` / `String`, the sequential crawl loop of `ragchat.crawl.crawl`
becomes a fuel-indexed step function over an explicit `CrawlState`, network
and disk are abstracted into a deterministic `Site` environment, and the mock
clock used for rate limiting is a rational number.

Modelling notes (subset restrictions, stated once here and at the
definitions):
* URLs: `urllib.parse` is modelled for absolute `scheme://host[:port]path`
  URLs with ASCII characters, without userinfo (`user@`), IPv6 brackets,
  percent-escapes, or dot-segment resolution; case folding is ASCII.
* `hashlib` digests are modelled by an injective deterministic stand-in.
* BeautifulSoup anchor extraction and the sitemap `<loc>` regex are
  abstracted: a fetched `Response` carries its anchors' href attributes and
  its `<loc>` matches as data.
* `time.monotonic` / `asyncio.sleep` are modelled by an explicit rational
  clock; disk write errors by a per-path failure oracle.
-/

namespace Ragchat

/-! ### ASCII character helpers (modelling Python `str` operations) -/

/-- The 26 ASCII uppercase letters. -/
def upperAsciiChars : List Char := ("ABCDEFGHIJKLMNOPQRSTUVWXYZ").toList

/-- The 26 ASCII lowercase letters. -/
def lowerAsciiChars : List Char := ("abcdefghijklmnopqrstuvwxyz").toList

/-- Upper-to-lower pairs for ASCII case folding. -/
def lowerPairs : List (Char × Char) := List.zip upperAsciiChars lowerAsciiChars

/-- First-match lookup in an association list of characters. -/
def lowerLookup : List (Char × Char) → Char → Option Char
  | [], _ => none
  | (a, b) :: rest, c => if c = a then some b else lowerLookup rest c

/-- Models Python `str.lower` on a single character (ASCII subset). -/
def lowerChar (c : Char) : Char :=
  match lowerLookup lowerPairs c with
  | some d => d
  | none => c

/-- Models Python `str.lower` (ASCII subset). -/
def lowerList (s : List Char) : List Char := s.map lowerChar

/-- ASCII letters. -/
def asciiLetters : List Char := upperAsciiChars ++ lowerAsciiChars

/-- Is `c` an ASCII letter? (Models the scheme-character check of
`urllib.parse`, restricted to letters.) -/
def isAlphaChar (c : Char) : Bool := decide (c ∈ asciiLetters)

/-- The ten ASCII digits. -/
def digitChars : List Char := ("0123456789").toList

/-- Is `c` an ASCII digit? -/
def isDigitChar (c : Char) : Bool := decide (c ∈ digitChars)

/-- Numeric value of an ASCII digit. -/
def digitVal (c : Char) : Nat := c.toNat - 48

/-- The ASCII digit with value `n` (for `n < 10`). -/
def digitChar (n : Nat) : Char := digitChars.getD n ('0')

/-- Parse a digit string into a number, most significant digit first. -/
def digitsToNat (l : List Char) : Nat := l.foldl (fun acc c => acc * 10 + digitVal c) 0

/-- Decimal rendering of a natural number, with explicit fuel so that the
definition is structural and kernel-reducible. -/
def natDigitsAux : Nat → Nat → List Char
  | 0, _ => []
  | fuel + 1, n =>
    if n < 10 then [digitChar n]
    else natDigitsAux fuel (n / 10) ++ [digitChar (n % 10)]

/-- Decimal rendering of a natural number (models Python `str(n)`). -/
def natDigits (n : Nat) : List Char := natDigitsAux (n + 1) n

/-- Python `str.strip()` whitespace predicate. -/
def isSpaceChar (c : Char) : Bool := c = ' ' || c = '\t' || c = '\r' || c = '\n'

/-- Models Python `str.strip()`. -/
def trimStr (s : List Char) : List Char :=
  ((s.dropWhile isSpaceChar).reverse.dropWhile isSpaceChar).reverse

/-- Split a list at the first occurrence of `sep`: returns the part before and,
when `sep` occurs, the part after (models Python `str.split(sep, 1)` and
`str.partition`). -/
def splitFirst (sep : Char) : List Char → List Char × Option (List Char)
  | [] => ([], none)
  | c :: cs =>
    if c = sep then ([], some cs)
    else
      let r := splitFirst sep cs
      (c :: r.1, r.2)

/-- Does `p` occur as a leading run of `l`?  (Models `str.startswith`.) -/
def leadsWith : List Char → List Char → Bool
  | [], _ => true
  | _ :: _, [] => false
  | a :: as, b :: bs => a = b && leadsWith as bs

/-- Does `p` occur as a trailing run of `l`?  (Models `str.endswith`.) -/
def endsList (p l : List Char) : Bool := leadsWith p.reverse l.reverse

/-- Does `p` occur as a contiguous run inside `l`?  (Models Python `in`.) -/
def occursIn (p : List Char) : List Char → Bool
  | [] => p = []
  | c :: cs => leadsWith p (c :: cs) || occursIn p cs

/-- `str.lower` on a `String`. -/
def lowerString (s : String) : String := String.mk (lowerList s.toList)

/-- `str.endswith` on `String`s. -/
def endsWithStr (s p : String) : Bool := endsList p.toList s.toList

/-! ### URL model (subset of `urllib.parse`)

The parser accepts absolute URLs of the shape
`scheme://host[:port]path[?query][#fragment]` where the scheme consists of
ASCII letters and the netloc contains no `@`, `[` or `]` (no userinfo, no
IPv6).  On this subset it agrees with `urllib.parse.urlsplit`; strings
outside it are rejected, matching the cases in which `_norm_url` returns
`None` anyway. -/

/-- Characters ending the netloc in `urlsplit`. -/
def netlocEnd (c : Char) : Bool := c = '/' || c = '?' || c = '#'

/-- Netloc characters excluded from the modelled subset (userinfo, IPv6). -/
def forbiddenHostChar (c : Char) : Bool := c = '@' || c = '[' || c = ']'

/-- Parsed components of an absolute URL.  `host` keeps its original case,
mirroring `urlsplit().netloc`; `scheme` is lower-cased, mirroring
`urlsplit().scheme`.  Empty `query`/`frag` stand for an absent component,
matching how `urlunsplit` re-renders them. -/
structure UrlParts where
  scheme : List Char
  host : List Char
  port : Option Nat
  path : List Char
  query : List Char
  frag : List Char
deriving DecidableEq, Repr

/-- Port validation: models CPython's `_hostinfo`/`port`, where an empty port
string yields no port and a non-digit or out-of-range port raises
`ValueError` (surfacing as a parse failure here). -/
def parsePort (ds : List Char) : Option (Option Nat) :=
  if ds = [] then some none
  else if ds.all isDigitChar ∧ digitsToNat ds ≤ 65535 then some (some (digitsToNat ds))
  else none

/-- Models `urllib.parse.urlsplit` on the subset described above. -/
def parseUrl (l : List Char) : Option UrlParts :=
  match splitFirst ':' l with
  | (_, none) => none
  | (schemeRaw, some rest) =>
    if schemeRaw = [] then none
    else if ¬ schemeRaw.all isAlphaChar then none
    else
      match rest with
      | '/' :: '/' :: rest2 =>
        let netloc := rest2.takeWhile (fun c => !(netlocEnd c))
        let after := rest2.dropWhile (fun c => !(netlocEnd c))
        if netloc.any forbiddenHostChar then none
        else
          let host := (splitFirst ':' netloc).1
          if host = [] then none
          else
            match (match (splitFirst ':' netloc).2 with
                   | none => some none
                   | some ds => parsePort ds) with
            | none => none
            | some port =>
              let beforeFrag := (splitFirst '#' after).1
              let frag :=
                match (splitFirst '#' after).2 with
                | none => ([] : List Char)
                | some f => f
              let path := (splitFirst '?' beforeFrag).1
              let query :=
                match (splitFirst '?' beforeFrag).2 with
                | none => ([] : List Char)
                | some q => q
              some ⟨lowerList schemeRaw, host, port, path, query, frag⟩
      | _ => none

/-- `?query` suffix as rendered by `urlunsplit` (dropped when empty). -/
def renderQuery (q : List Char) : List Char := if q = [] then [] else '?' :: q

/-- `#fragment` suffix as rendered by `urlunsplit` (dropped when empty). -/
def renderFrag (f : List Char) : List Char := if f = [] then [] else '#' :: f

/-- Netloc from host and port (decimal port, no leading zeros). -/
def renderHostPort (host : List Char) (port : Option Nat) : List Char :=
  match port with
  | none => host
  | some p => host ++ ':' :: natDigits p

/-- Models `urllib.parse.urlunsplit` / `geturl` on the subset. -/
def renderParts (u : UrlParts) : List Char :=
  u.scheme ++ ':' :: '/' :: '/' :: renderHostPort u.host u.port
    ++ u.path ++ renderQuery u.query ++ renderFrag u.frag

/-- Resolve a scheme-less relative reference `href` against the parsed base
`b`, as `urljoin` does: network-path (`//`), absolute-path (`/`),
fragment-only (`#`), query-only (`?`) and bare-relative references, the last
replacing the final segment of the base path (no dot-segment handling in the
modelled subset). -/
def resolveRel (b : UrlParts) (href : List Char) : List Char :=
  match href with
  | '/' :: '/' :: _ =>
    (match parseUrl (b.scheme ++ ':' :: href) with
     | some h2 => renderParts h2
     | none => href)
  | '/' :: _ =>
    let beforeFrag := (splitFirst '#' href).1
    let frag :=
      match (splitFirst '#' href).2 with
      | none => ([] : List Char)
      | some f => f
    let path := (splitFirst '?' beforeFrag).1
    let query :=
      match (splitFirst '?' beforeFrag).2 with
      | none => ([] : List Char)
      | some q => q
    renderParts { b with path := path, query := query, frag := frag }
  | '#' :: f => renderParts { b with frag := f }
  | '?' :: rest =>
    let query := (splitFirst '#' rest).1
    let frag :=
      match (splitFirst '#' rest).2 with
      | none => ([] : List Char)
      | some f => f
    renderParts { b with query := query, frag := frag }
  | _ =>
    let beforeFrag := (splitFirst '#' href).1
    let frag :=
      match (splitFirst '#' href).2 with
      | none => ([] : List Char)
      | some f => f
    let path := (splitFirst '?' beforeFrag).1
    let query :=
      match (splitFirst '?' beforeFrag).2 with
      | none => ([] : List Char)
      | some q => q
    let bdir := (b.path.reverse.dropWhile (fun c => !(c = '/'))).reverse
    renderParts { b with path := bdir ++ path, query := query, frag := frag }

/-- Models `urllib.parse.urljoin` on the subset: a reference carrying a
scheme different from the base's is returned unchanged (this is how
`mailto:`/`javascript:` hrefs survive to be rejected by `_norm_url`); an
absolute reference with the base's scheme is re-rendered from its components
exactly as CPython does; scheme-less references are resolved against the
base via `resolveRel`. -/
def urljoin (base href : List Char) : List Char :=
  if base = [] then href
  else if href = [] then base
  else
    let hrefScheme : Option (List Char) :=
      match splitFirst ':' href with
      | (sr, some _) => if sr ≠ [] ∧ sr.all isAlphaChar then some (lowerList sr) else none
      | (_, none) => none
    match hrefScheme, parseUrl base with
    | some s, some b =>
      if s ≠ b.scheme then href
      else
        match parseUrl href with
        | some h => renderParts h
        | none => resolveRel b (((splitFirst ':' href).2).getD [])
    | some _, none => href
    | none, some b => resolveRel b href
    | none, none => href

/-- `"http"` as characters. -/
def httpChars : List Char := ("http").toList

/-- `"https"` as characters. -/
def httpsChars : List Char := ("https").toList

/-- Models `ragchat.crawl._norm_url`: resolve `href` against `base`, strip
the fragment, require an `http*` scheme, lower-case the host and strip
default and zero ports; `none` on empty href or unparseable input. -/
def normUrlL (base href : List Char) : Option (List Char) :=
  if href = [] then none
  else
    let absu := urljoin base href
    let u := (splitFirst '#' absu).1
    match parseUrl u with
    | none => none
    | some p =>
      if ¬ leadsWith httpChars p.scheme then none
      else
        let hostL := lowerList p.host
        let netloc :=
          match p.port with
          | some pt =>
            if pt ≠ 0 then
              if (p.scheme = httpChars ∧ pt = 80) ∨ (p.scheme = httpsChars ∧ pt = 443)
              then hostL
              else hostL ++ ':' :: natDigits pt
            else hostL
          | none => hostL
        some (p.scheme ++ ':' :: '/' :: '/' :: netloc ++ p.path ++ renderQuery p.query)

/-- `_norm_url` on `String`s. -/
def norm_url (base href : String) : Option String :=
  (normUrlL base.toList href.toList).map (fun l => String.mk l)

/-- One-argument specialization of the normalizer for idempotence statements:
normalize the absolute URL `u` (resolving it against itself, which `urljoin`
leaves unchanged). -/
def normalize (u : String) : Option String := norm_url u u

/-- Models `urlparse(url).hostname or ""`, lower-cased: the host part of an
absolute URL in the modelled subset, `""` otherwise. -/
def hostnameOf (url : List Char) : List Char :=
  match parseUrl url with
  | some p => lowerList p.host
  | none => []

/-- Models `urlparse(url).netloc` (raw, case preserved) for the crawl code's
rate-limiter and robots-cache keys. -/
def netlocOf (url : List Char) : List Char :=
  let rest :=
    match splitFirst ':' url with
    | (schemeRaw, some r) =>
      if schemeRaw ≠ [] ∧ schemeRaw.all isAlphaChar then r else url
    | (_, none) => url
  match rest with
  | '/' :: '/' :: r2 => r2.takeWhile (fun c => !(netlocEnd c))
  | _ => []

/-- Models Python `str.lstrip(".")`. -/
def stripDotsLeft (s : List Char) : List Char := s.dropWhile (fun c => c = '.')

/-- Models `ragchat.crawl._domain_allowed`: the URL's lower-cased hostname
must equal an allow-listed domain, or (with subdomains enabled) end in
`"." + domain`. -/
def domain_allowed (url : String) (allow_domains : List String) (include_subdomains : Bool) : Bool :=
  let host := hostnameOf url.toList
  if host = [] then false
  else
    allow_domains.any fun dom =>
      let d := stripDotsLeft (lowerList dom.toList)
      host = d || (include_subdomains && endsList ('.' :: d) host)

/-! ### Content classification -/

/-- The crawler's user agent string. -/
def USER_AGENT : String := "ragchat-mirror/0.2 (+local)"

/-- Models `(r.headers.get("content-type") or "").split(";")[0].strip().lower()`. -/
def ctHeaderNorm (raw : String) : String :=
  String.mk (lowerList (trimStr (splitFirst ';' raw.toList).1))

/-- `HTML_CT` from crawl.py. -/
def HTML_CT : List String := ["text/html", "application/xhtml+xml"]

/-- `PDF_CT` from crawl.py. -/
def PDF_CT : List String := ["application/pdf"]

/-- The crawl loop's `is_pdf` test: normalized content type in `PDF_CT`, or
the lower-cased URL ends in `.pdf`. -/
def crawlIsPdf (url ct : String) : Bool :=
  PDF_CT.contains ct || endsWithStr (lowerString url) (".pdf")

/-- The crawl loop's `is_html` test: normalized content type in `HTML_CT`,
or the lower-cased URL ends in `.html`, `.htm` or `/`. -/
def crawlIsHtml (url ct : String) : Bool :=
  HTML_CT.contains ct || endsWithStr (lowerString url) (".html")
    || endsWithStr (lowerString url) (".htm") || endsWithStr (lowerString url) ("/")

/-- Models `_guess_kind`: `"pdf"` when the lower-cased URL ends in `.pdf` or
the content type contains `"pdf"`, else `"html"`. -/
def guess_kind (url content_type : String) : String :=
  if endsWithStr (lowerString url) (".pdf") || occursIn (("pdf").toList) content_type.toList
  then "pdf" else "html"

/-- Models `_hash_name` (first 16 hex chars of sha256 of the URL).  The
model uses the URL string itself as its digest: a deterministic injective
stand-in, which is all the surrounding code relies on. -/
def hash_name (url : String) : String := url

/-- Models `scripts/crawl_pdfs.py::looks_pdf` (same in the sitemaps-first
script): `re.search(r"\.pdf(\?|$)", u, re.I)`, i.e. the lower-cased URL ends
in `.pdf` or contains `.pdf?`. -/
def looks_pdf (u : String) : Bool :=
  endsList ((".pdf").toList) (lowerList u.toList)
    || occursIn ((".pdf?").toList) (lowerList u.toList)

/-! ### robots.txt (urllib.robotparser as driven by RobotsCache) -/

/-- One Allow/Disallow line. -/
structure RuleLine where
  rpath : List Char
  allowance : Bool
deriving DecidableEq, Repr

/-- A robots.txt entry: user agents and their rule lines. -/
structure RobotsEntry where
  useragents : List (List Char)
  rulelines : List RuleLine
deriving DecidableEq, Repr

/-- Parsed robots rules: ordinary entries plus the `*` default entry. -/
structure RobotsRules where
  entries : List RobotsEntry
  defaultEntry : Option RobotsEntry
deriving DecidableEq, Repr

/-- A fresh `Entry()`. -/
def emptyEntry : RobotsEntry := ⟨[], []⟩

/-- Rules of a freshly constructed parser. -/
def emptyRules : RobotsRules := ⟨[], none⟩

/-- `RuleLine.__init__`: an empty Disallow path becomes an allow-all line. -/
def mkRuleLine (path : List Char) (allow : Bool) : RuleLine :=
  if path = [] ∧ allow = false then ⟨path, true⟩ else ⟨path, allow⟩

/-- `RobotFileParser._add_entry`: the first `*` entry becomes the default,
later `*` entries are dropped, others are appended. -/
def addEntry (r : RobotsRules) (e : RobotsEntry) : RobotsRules :=
  if (['*'] : List Char) ∈ e.useragents then
    match r.defaultEntry with
    | none => { r with defaultEntry := some e }
    | some _ => r
  else { r with entries := r.entries ++ [e] }

/-- Parser state of `RobotFileParser.parse`'s line loop. -/
structure RobotsParseSt where
  pstate : Nat
  entry : RobotsEntry
  rules : RobotsRules

/-- The `user-agent` key. -/
def uaKey : List Char := ("user-agent").toList

/-- The `disallow` key. -/
def disallowKey : List Char := ("disallow").toList

/-- The `allow` key. -/
def allowKey : List Char := ("allow").toList

/-- One line of `RobotFileParser.parse`: flush on blank lines, strip
comments and whitespace, then dispatch on the lower-cased key before the
first `:` (percent-unquoting omitted in the modelled subset). -/
def robotsLineStep (st : RobotsParseSt) (line : List Char) : RobotsParseSt :=
  let st :=
    if line = [] then
      if st.pstate = 1 then { st with entry := emptyEntry, pstate := 0 }
      else if st.pstate = 2 then
        { pstate := 0, entry := emptyEntry, rules := addEntry st.rules st.entry }
      else st
    else st
  let l := trimStr (splitFirst '#' line).1
  if l = [] then st
  else
    match splitFirst ':' l with
    | (_, none) => st
    | (k, some v) =>
      let key := lowerList (trimStr k)
      let val := trimStr v
      if key = uaKey then
        let st :=
          if st.pstate = 2 then
            { st with rules := addEntry st.rules st.entry, entry := emptyEntry }
          else st
        { st with entry := { st.entry with useragents := st.entry.useragents ++ [val] },
                  pstate := 1 }
      else if key = disallowKey then
        if st.pstate ≠ 0 then
          { st with
            entry := { st.entry with rulelines := st.entry.rulelines ++ [mkRuleLine val false] },
            pstate := 2 }
        else st
      else if key = allowKey then
        if st.pstate ≠ 0 then
          { st with
            entry := { st.entry with rulelines := st.entry.rulelines ++ [mkRuleLine val true] },
            pstate := 2 }
        else st
      else st

/-- `RobotFileParser.parse`. -/
def parseRobotsLines (lines : List (List Char)) : RobotsRules :=
  let fin := lines.foldl robotsLineStep ⟨0, emptyEntry, emptyRules⟩
  if fin.pstate = 2 then addEntry fin.rules fin.entry else fin.rules

/-- `Entry.applies_to`: the checked token is the part of the user agent
before `/`, lower-cased; the entry applies when it lists `*` or an agent
whose lower-casing occurs inside that token. -/
def entryAppliesTo (e : RobotsEntry) (useragent : List Char) : Bool :=
  let ua := lowerList (splitFirst '/' useragent).1
  e.useragents.any fun a => if a = ['*'] then true else occursIn (lowerList a) ua

/-- `RuleLine.applies_to`. -/
def ruleApplies (r : RuleLine) (path : List Char) : Bool :=
  if r.rpath = ['*'] then true else leadsWith r.rpath path

/-- `Entry.allowance`: the first matching rule wins, default allow. -/
def entryAllowance (e : RobotsEntry) (path : List Char) : Bool :=
  match e.rulelines.find? (fun r => ruleApplies r path) with
  | some r => r.allowance
  | none => true

/-- The string `can_fetch` matches rules against: everything after
`scheme://netloc` (path, query and fragment re-assembled unchanged), or `/`
when that is empty (percent-quoting omitted in the modelled subset). -/
def robotsPathOf (url : List Char) : List Char :=
  let rest :=
    match splitFirst ':' url with
    | (sr, some r) => if sr ≠ [] ∧ sr.all isAlphaChar then r else url
    | (_, none) => url
  let stripped :=
    match rest with
    | '/' :: '/' :: r2 => r2.dropWhile (fun c => !(netlocEnd c))
    | _ => rest
  if stripped = [] then ['/'] else stripped

/-- `RobotFileParser.can_fetch`, with `parse` already called as in
`RobotsCache.allowed` (so `disallow_all`/`allow_all` are false and
`last_checked` is set). -/
def can_fetch (rules : RobotsRules) (useragent url : List Char) : Bool :=
  let path := robotsPathOf url
  match rules.entries.find? (fun e => entryAppliesTo e useragent) with
  | some e => entryAllowance e path
  | none =>
    match rules.defaultEntry with
    | some e => entryAllowance e path
    | none => true

/-! ### The crawl environment and state (`ragchat.crawl.crawl`) -/

/-- A fetched HTTP response.  `hrefs` stands for the href attributes
BeautifulSoup would extract from the body's anchors, and `locs` for the
matches of the sitemap `<loc>` regex against the body. -/
structure Response where
  status : Nat
  contentType : String
  body : String
  hrefs : List String
  locs : List String
deriving DecidableEq

/-- The deterministic environment a crawl runs against.  `robots` maps a
netloc to the lines of the robots.txt the host serves — what a successful
HTTP GET of `/robots.txt` would return; `RobotsCache.allowed` never obtains
them (see `robotsAllowed`), so the field only matters for stating what the
program ignores.  `fetch u = none` models a request error in `_fetch`.
`fetchDur` is the mock time a fetch consumes and `diskFails` tells which
paths raise an `OSError` when written. -/
structure Site where
  fetch : String → Option Response
  robots : String → Option (List String)
  fetchDur : String → ℚ
  diskFails : String → Bool

/-- `RobotsCache.allowed` as the program executes it.  The method calls
`self.client.get(robots_url)` without `await`; `crawl` and
`_discover_from_sitemaps` always pass the `httpx.AsyncClient`, so the call
returns a coroutine and the next line, `resp.status_code`, raises
`AttributeError`.  The `except Exception` handler then does `rp.parse([])`
and `self.sitemap_urls[netloc] = []`.  Every lookup therefore takes the
fail-open path: the parsed rules are always `parseRobotsLines []` and the
robots.txt the host serves (`site.robots`) is never consulted, so
`can_fetch` accepts every URL.  The per-netloc cache is semantically
transparent (every entry holds the same empty-parse result), so it is
omitted. -/
def robotsAllowed (site : Site) (url : String) : Bool :=
  can_fetch (parseRobotsLines []) USER_AGENT.toList url.toList

/-- `RobotsCache.sitemaps_for`: the cached `Sitemap:` payloads for the
URL's netloc.  The cache is only ever written by `allowed`'s
`except Exception` branch (the unawaited `get` above), which stores `[]`,
so the lookup returns `[]` for every netloc. -/
def sitemapsFor (site : Site) (netloc : String) : List String := []

/-- `RateLimiter.min_interval = 1.0 / max(per_domain_rps, 0.001)`, in exact
rational arithmetic. -/
def minInterval (per_domain_rps : ℚ) : ℚ := 1 / max per_domain_rps (1 / 1000)

/-- Mock-clock state for `RateLimiter.wait`: the current monotonic time and
the per-host `last` map (`defaultdict(float)`, defaulting to 0). -/
structure LimiterClock where
  clock : ℚ
  last : List (List Char × ℚ)

/-- Lookup in the `last` map (0 when absent, as for `defaultdict`). -/
def lookupLast (l : List (List Char × ℚ)) (host : List Char) : ℚ :=
  match l with
  | [] => 0
  | (k, v) :: rest => if k = host then v else lookupLast rest host

/-- Update the `last` map. -/
def setLast (l : List (List Char × ℚ)) (host : List Char) (t : ℚ) :
    List (List Char × ℚ) :=
  (host, t) :: l.filter (fun p => decide (p.1 ≠ host))

/-- `RateLimiter.wait` under the mock clock: sleep exactly the remaining
deficit when the elapsed time since the last request to `host` is below the
minimum interval, then record the post-sleep time as the host's new last
request time. -/
def rateWait (minInt : ℚ) (host : List Char) (lc : LimiterClock) : LimiterClock :=
  let now := lc.clock
  let delta := now - lookupLast lc.last host
  let c2 := if delta < minInt then now + (minInt - delta) else now
  { clock := c2, last := setLast lc.last host c2 }

/-- `ragchat.crawl.CrawlConfig` (the output directory is implicit: store
paths are relative to it). -/
structure CrawlConfig where
  allow_domains : List String
  obey_robots_txt : Bool := true
  rate_limit_per_domain : ℚ := 1
  max_pages : Nat := 1000
  include_subdomains : Bool := true
  use_sitemaps : Bool := true

/-- One line of `_manifest.jsonl`. -/
structure ManifestEntry where
  url : String
  content_type : String
  saved_path : String
deriving DecidableEq, Repr

/-- The mutable state of the sequential crawl loop.  `fetchLog` records
every `_fetch` invocation in order (sitemap discovery included), `reqLog`
the rate-limited page requests as (host, mock request time) pairs, `enqLog`
every `q.append`, and `store` the sequence of file writes as
(path, content) pairs. -/
structure CrawlState where
  q : List String
  seen : List String
  fetched : Nat
  saved : Nat
  fetchLog : List String
  reqLog : List (List Char × ℚ)
  enqLog : List String
  manifest : List ManifestEntry
  urlsTxt : List String
  store : List (String × String)
  clock : ℚ
  last : List (List Char × ℚ)

/-- The blob path and sidecar path `_save_blob` writes for a URL. -/
def saveBlobPaths (url content_type : String) : String × String :=
  let h := hash_name url
  let kind := guess_kind url content_type
  let ext := if kind = "pdf" then (".pdf") else (".html")
  (kind ++ ("/") ++ h ++ ext, kind ++ ("/") ++ h ++ (".meta.json"))

/-- Models `_save_blob`: write the blob, then the JSON sidecar (sidecar
content abstracted to the URL), returning the relative saved path; a disk
failure on either write raises, surfacing as `Except.error` carrying the
writes that did land. -/
def save_blob (site : Site) (store : List (String × String)) (url : String)
    (content : String) (content_type : String) :
    Except (List (String × String)) (String × List (String × String)) :=
  let paths := saveBlobPaths url content_type
  if site.diskFails paths.1 then .error store
  else
    let store1 := store ++ [(paths.1, content)]
    if site.diskFails paths.2 then .error store1
    else .ok (paths.1, store1 ++ [(paths.2, url)])

/-- `_should_enqueue`: literally
`url.lower().endswith(SAVE_SUFFIXES) or True`. -/
def should_enqueue (url : String) : Bool :=
  (endsWithStr (lowerString url) (".html") || endsWithStr (lowerString url) (".htm")
    || endsWithStr (lowerString url) (".pdf")) || true

/-- `_parse_links`: normalize each anchor href of the page against its URL,
keeping the successes. -/
def parse_links (base : String) (hrefs : List String) : List String :=
  hrefs.filterMap (fun h => norm_url base h)

/-- Body of the link loop: drop URLs already seen, out-of-policy URLs and
(vacuously) URLs failing `_should_enqueue`; otherwise mark seen and append
to the queue. -/
def enqueueOne (cfg : CrawlConfig) (st : CrawlState) (nurl : String) : CrawlState :=
  if nurl ∈ st.seen then st
  else if ¬ domain_allowed nurl cfg.allow_domains cfg.include_subdomains then st
  else if ¬ should_enqueue nurl then st
  else { st with seen := nurl :: st.seen, q := st.q ++ [nurl], enqLog := st.enqLog ++ [nurl] }

/-- The `for nurl in links` loop over the page's extracted links. -/
def enqueueLinks (cfg : CrawlConfig) (base : String) (hrefs : List String)
    (st : CrawlState) : CrawlState :=
  (parse_links base hrefs).foldl (enqueueOne cfg) st

/-- The state right after the rate-limited `_fetch` call on `url`:
queue popped, clock advanced by the enforced wait plus the fetch duration,
the request and fetch logged, `fetched` incremented. -/
def fetchedState (cfg : CrawlConfig) (site : Site) (st : CrawlState)
    (url : String) (rest : List String) : CrawlState :=
  let host := netlocOf url.toList
  let lc := rateWait (minInterval cfg.rate_limit_per_domain) host ⟨st.clock, st.last⟩
  { st with
    q := rest,
    clock := lc.clock + site.fetchDur url,
    last := lc.last,
    reqLog := st.reqLog ++ [(host, lc.clock)],
    fetchLog := st.fetchLog ++ [url],
    fetched := st.fetched + 1 }

/-- The state after a successful `_save_blob`: manifest line and `urls.txt`
line appended, `saved` incremented. -/
def savedState (st : CrawlState) (url ct path : String)
    (store1 : List (String × String)) : CrawlState :=
  { st with
    store := store1,
    manifest := st.manifest ++ [⟨url, ct, path⟩],
    urlsTxt := st.urlsTxt ++ [url],
    saved := st.saved + 1 }

/-- Result of one iteration of the crawl loop. -/
inductive StepResult where
  | stop
  | next (st : CrawlState)
  | fail (st : CrawlState)

/-- One iteration of `while q and fetched < config.max_pages`: pop a URL,
drop it on a robots disallow, otherwise rate-limit, fetch (counting the
attempt), classify, persist pdf/html responses (an uncaught write error
aborting the crawl), and extract links from html responses. -/
def crawlStep (cfg : CrawlConfig) (site : Site) (st : CrawlState) : StepResult :=
  match st.q with
  | [] => .stop
  | url :: rest =>
    if cfg.max_pages ≤ st.fetched then .stop
    else if cfg.obey_robots_txt = true ∧ robotsAllowed site url = false then
      .next { st with q := rest }
    else
      let st2 := fetchedState cfg site st url rest
      match site.fetch url with
      | none => .next st2
      | some r =>
        let ct := ctHeaderNorm r.contentType
        let pdfFlag := crawlIsPdf url ct
        let htmlFlag := crawlIsHtml url ct
        if pdfFlag || htmlFlag then
          match save_blob site st2.store url r.body ct with
          | .error store1 => .fail { st2 with store := store1 }
          | .ok (path, store1) =>
            let st3 := savedState st2 url ct path store1
            .next (if htmlFlag then enqueueLinks cfg url r.hrefs st3 else st3)
        else
          .next (if htmlFlag then enqueueLinks cfg url r.hrefs st2 else st2)

/-- Outcome of a crawl: normal loop exit, an uncaught exception, or fuel
exhaustion of the model. -/
inductive CrawlOutcome where
  | done (st : CrawlState)
  | aborted (st : CrawlState)
  | fuelOut (st : CrawlState)

/-- Final state of an outcome. -/
def outState : CrawlOutcome → CrawlState
  | .done st => st
  | .aborted st => st
  | .fuelOut st => st

/-- The crawl loop, fuel-indexed so that the definition is structural. -/
def crawlLoop (cfg : CrawlConfig) (site : Site) : Nat → CrawlState → CrawlOutcome
  | 0, st => .fuelOut st
  | fuel + 1, st =>
    match crawlStep cfg site st with
    | .stop => .done st
    | .fail st1 => .aborted st1
    | .next st1 => crawlLoop cfg site fuel st1

/-- Seed normalization: `n = _norm_url(s, "") or s` (which, because an
empty href is rejected, always keeps the raw seed string) followed by the
truthiness and domain-policy check. -/
def seedNorm (s : String) : String :=
  match norm_url s ("") with
  | some n => if n = ("") then s else n
  | none => s

/-- The `seeds_n` list of `crawl`. -/
def seedsNorm (cfg : CrawlConfig) (seeds : List String) : List String :=
  (seeds.map seedNorm).filter fun n =>
    if n = ("") then false
    else domain_allowed n cfg.allow_domains cfg.include_subdomains

/-- `_discover_from_sitemaps`: for each normalized seed it calls
`robots.allowed(s)` to force the robots load and then iterates over
`robots.sitemaps_for(s)`, fetching each sitemap, skipping failures and
status ≥ 400, and accumulating the `<loc>` matches (insertion-ordered
deduplication models the Python set).  Because the unawaited `get` in
`allowed` always records `[]` for the netloc (see `sitemapsFor`), the inner
loop body never runs: no sitemap is ever fetched and nothing is ever
discovered.  Returns the discovered list together with the `_fetch` log of
the phase. -/
def discoverFromSitemaps (site : Site) (seedsN : List String) :
    List String × List String :=
  seedsN.foldl
    (fun acc s =>
      (sitemapsFor site (String.mk (netlocOf s.toList))).foldl
        (fun acc2 sm =>
          let log2 := acc2.2 ++ [sm]
          match site.fetch sm with
          | none => (acc2.1, log2)
          | some r =>
            if 400 ≤ r.status then (acc2.1, log2)
            else (r.locs.foldl (fun d u => if u ∈ d then d else d ++ [u]) acc2.1, log2))
        acc)
    ([], [])

/-- Set-insert for `seen.add`. -/
def seenInsert (seen : List String) (u : String) : List String :=
  if u ∈ seen then seen else u :: seen

/-- The state just before the main loop: sitemap-discovered URLs (filtered
by domain policy) enqueued first, then every normalized seed appended
unconditionally; both are added to `seen`. -/
def crawlInit (cfg : CrawlConfig) (site : Site) (seeds : List String)
    (manifest0 : List ManifestEntry) (urls0 : List String)
    (store0 : List (String × String)) (clock0 : ℚ) : CrawlState :=
  let sn := seedsNorm cfg seeds
  let disc := if cfg.use_sitemaps then discoverFromSitemaps site sn else ([], [])
  let discAllowed :=
    disc.1.filter fun u => domain_allowed u cfg.allow_domains cfg.include_subdomains
  { q := discAllowed ++ sn
    seen := sn.foldl seenInsert (discAllowed.foldl seenInsert [])
    fetched := 0
    saved := 0
    fetchLog := disc.2
    reqLog := []
    enqLog := discAllowed ++ sn
    manifest := manifest0
    urlsTxt := urls0
    store := store0
    clock := clock0
    last := [] }

/-- A full `crawl` invocation against the persisted state (manifest,
urls.txt, store) left by previous runs, as the append-mode file handles
give. -/
def crawlRun (cfg : CrawlConfig) (site : Site) (seeds : List String) (fuel : Nat)
    (manifest0 : List ManifestEntry) (urls0 : List String)
    (store0 : List (String × String)) (clock0 : ℚ) : CrawlOutcome :=
  crawlLoop cfg site fuel (crawlInit cfg site seeds manifest0 urls0 store0 clock0)

/-! ### scripts/crawl_pdfs_sitemaps_first.py — the resumable downloader -/

/-- sha1-prefix stand-in (same modelling as `hash_name`). -/
def sha16 (s : String) : String := s

/-- `re.sub(r"[^A-Za-z0-9._-]", "_", name)` on one character. -/
def sanitizeChar (c : Char) : Char :=
  if isAlphaChar c || isDigitChar c || c = '.' || c = '_' || c = '-' then c else '_'

/-- `target_paths_for`: blob path `{sid}_{name}` and sidecar
`{sid}.meta.json`, `name` being the sanitized basename of the URL path
(defaulting to `{sid}.pdf`), given a `.pdf` suffix when missing. -/
def target_paths_for (url : String) : String × String :=
  let sid := sha16 url
  let p :=
    match parseUrl url.toList with
    | some parts => parts.path
    | none => url.toList
  let base0 := (p.reverse.takeWhile (fun c => !(c = '/'))).reverse
  let name0 := if base0 = [] then (sid ++ (".pdf")).toList else base0
  let name1 := name0.map sanitizeChar
  let name2 :=
    if endsList ((".pdf").toList) (lowerList name1) then name1
    else name1 ++ ((".pdf").toList)
  (sid ++ ("_") ++ String.mk name2, sid ++ (".meta.json"))

/-- File-system view for the downloader: file sizes by path. -/
def fileSize (files : List (String × Nat)) (path : String) : Option Nat :=
  match files.find? (fun p => decide (p.1 = path)) with
  | some p => some p.2
  | none => none

/-- The resumability check of `download_one`: the blob path exists with
size > 0 and the sidecar exists. -/
def alreadyPersisted (files : List (String × Nat)) (url : String) : Bool :=
  let tp := target_paths_for url
  match fileSize files tp.1 with
  | some n => decide (0 < n) && (fileSize files tp.2).isSome
  | none => false

/-- `DownloadResult` of the sitemaps-first script. -/
structure DownloadResult where
  url : String
  path : String
  ok : Bool
  size : Nat
deriving DecidableEq, Repr

/-- The downloader's environment: `fetch url = some (ctype, nbytes)` for a
GET that succeeded with status 200 within the retries, `none` otherwise. -/
structure DlSite where
  fetch : String → Option (String × Nat)

/-- Write (or overwrite) a file of a given size. -/
def writeFile (files : List (String × Nat)) (path : String) (size : Nat) :
    List (String × Nat) :=
  (path, size) :: files.filter (fun p => decide (p.1 ≠ path))

/-- Models `download_one`: return at once (without fetching) when the
existence check passes; otherwise fetch, require a pdf content type or a
pdf-looking URL, stream the blob to disk and write the sidecar.  Returns
the result, the resulting file system, and the fetch invocations made. -/
def download_one (dl : DlSite) (files : List (String × Nat)) (url : String) :
    DownloadResult × List (String × Nat) × List String :=
  let tp := target_paths_for url
  if alreadyPersisted files url then
    (⟨url, tp.1, true, (fileSize files tp.1).getD 0⟩, files, [])
  else
    match dl.fetch url with
    | none => (⟨url, tp.1, false, 0⟩, files, [url])
    | some r =>
      if ¬ (occursIn (("pdf").toList) (lowerString r.1).toList) ∧ looks_pdf url = false then
        (⟨url, tp.1, false, 0⟩, files, [url])
      else
        let files1 := writeFile files tp.1 r.2
        let files2 := writeFile files1 tp.2 1
        (⟨url, tp.1, true, r.2⟩, files2, [url])

/-! ### scripts/crawl_pdfs.py — the worker's PDF persistence branch -/

/-- The try body of the worker's PDF branch (`crawl_pdfs.py` lines
128-132): blob write, then sidecar write, then `pdf_saved += 1`; a disk
failure raises, carrying the writes that did land. -/
def workerSaveAttempt (diskFails : String → Bool) (files : List (String × Nat))
    (url : String) (bodyLen : Nat) : Except (List (String × Nat)) (List (String × Nat)) :=
  let sid := sha16 url
  let pdf_path := sid ++ (".pdf")
  let meta_path := sid ++ (".meta.json")
  if diskFails pdf_path then .error files
  else
    let files1 := writeFile files pdf_path bodyLen
    if diskFails meta_path then .error files1
    else .ok (writeFile files1 meta_path 1)

/-- The worker's PDF branch with its `except Exception: pass`: failures
are swallowed, `pdf_saved` is incremented only on success, and the worker
continues with the next queue item in either case (the branch ends in
`to_visit.task_done(); continue`). -/
def worker_save_pdf (diskFails : String → Bool) (files : List (String × Nat))
    (url : String) (bodyLen : Nat) : Nat × List (String × Nat) :=
  match workerSaveAttempt diskFails files url bodyLen with
  | .ok files1 => (1, files1)
  | .error files1 => (0, files1)

/-! ### Concrete environments used by counterexamples and witnesses -/

/-- A single-page site: `http://h/p.html` serves HTML with no links. -/
def exSiteHtml : Site :=
  { fetch := fun u =>
      if u = ("http://h/p.html") then some ⟨200, "text/html", "<body>", [], []⟩
      else none
    robots := fun _ => none
    fetchDur := fun _ => 0
    diskFails := fun _ => false }

/-- A config allowing host `h`, robots off, no sitemaps. -/
def exCfg : CrawlConfig :=
  { allow_domains := ["h"], obey_robots_txt := false, rate_limit_per_domain := 2,
    max_pages := 5, include_subdomains := true, use_sitemaps := false }

/-- First crawl run of the resumability scenario, from an empty store. -/
def c1firstRun : CrawlOutcome :=
  crawlRun exCfg exSiteHtml [("http://h/p.html")] 10 [] [] [] 0

/-- Second crawl run over the same seeds and site, against the persisted
manifest/urls/store of the first run. -/
def c1secondRun : CrawlOutcome :=
  crawlRun exCfg exSiteHtml [("http://h/p.html")] 10
    (outState c1firstRun).manifest (outState c1firstRun).urlsTxt
    (outState c1firstRun).store 100

/-- A persisted downloader file system for `https://h/d.pdf`. -/
def exFiles : List (String × Nat) :=
  [((target_paths_for ("https://h/d.pdf")).1, 5),
   ((target_paths_for ("https://h/d.pdf")).2, 1)]

/-- A downloader environment whose fetches always succeed. -/
def exDl : DlSite := { fetch := fun _ => some ("application/pdf", 5) }

/-- A site where every write to the blob path of `http://h/p.html` fails,
and a second page exists. -/
def c6Site : Site :=
  { fetch := fun u =>
      if u = ("http://h/p.html") then some ⟨200, "text/html", "<body>", [], []⟩
      else if u = ("http://h/q.html") then some ⟨200, "text/html", "<body2>", [], []⟩
      else none
    robots := fun _ => none
    fetchDur := fun _ => 0
    diskFails := fun p => p = ("html/http://h/p.html.html") }

/-- Crawl of two pages whose first page's blob write fails. -/
def c6run : CrawlOutcome :=
  crawlRun exCfg c6Site [("http://h/p.html"), ("http://h/q.html")] 10 [] [] [] 0

/-- A configuration with a per-domain rate below the 0.001 clamp. -/
def c5Cfg : CrawlConfig :=
  { allow_domains := ["h"], obey_robots_txt := false,
    rate_limit_per_domain := 1 / 2048, max_pages := 5,
    include_subdomains := true, use_sitemaps := false }

/-- Two requests to the same host at the clamped rate. -/
def c5run : CrawlOutcome :=
  crawlRun c5Cfg exSiteHtml [("http://h/a"), ("http://h/b")] 10 [] [] [] 0

/-! ## Helper lemmas -/

/-- Is a crawl outcome an uncaught-exception abort? -/
def isAborted : CrawlOutcome → Bool
  | .aborted _ => true
  | _ => false

/-- The robots.txt served by host `h`: it disallows `/p1.html` for every
agent and declares a sitemap. -/
def c2Lines : List String :=
  ["User-agent: *", "Disallow: /p1.html", "Sitemap: https://h/sitemap.xml"]

/-- A host serving that robots.txt, the disallowed page itself, and the
declared sitemap. -/
def c2Site : Site :=
  { fetch := fun u =>
      if u = ("http://h/p1.html") then some ⟨200, "text/html", "", [], []⟩
      else if u = ("https://h/sitemap.xml") then
        some ⟨200, "text/xml", "", [], [("http://h/p2.html")]⟩
      else none
    robots := fun n => if n = ("h") then some c2Lines else none
    fetchDur := fun _ => 0
    diskFails := fun _ => false }

/-- A robots-obeying, sitemap-using configuration for host `h`. -/
def c2Cfg : CrawlConfig :=
  { allow_domains := ["h"], obey_robots_txt := true, rate_limit_per_domain := 2,
    max_pages := 5, include_subdomains := true, use_sitemaps := true }

/-- The crawl over `c2Site`, seeded with the robots-disallowed page. -/
def c2run : CrawlOutcome := crawlRun c2Cfg c2Site [("http://h/p1.html")] 10 [] [] [] 0

/-- Relative enqueue-dedup property between two states of one run: `seen`
only grows, enqueue-log membership tracks `seen`, URLs seen at the start
are never re-enqueued, and URLs not yet seen are enqueued at most once. -/
def DedupFrom (st0 st : CrawlState) : Prop :=
  (∀ v, v ∈ st.enqLog ↔ v ∈ st.seen) ∧
  (∀ v, v ∈ st0.seen → v ∈ st.seen) ∧
  (∀ u, (u ∈ st0.seen → List.count u st.enqLog = List.count u st0.enqLog) ∧
    (u ∉ st0.seen → List.count u st.enqLog ≤ 1))

/-- The page whose two anchors differ only in their fragment. -/
def c7Site : Site :=
  { fetch := fun u =>
      if u = ("http://h/") then some ⟨200, "text/html", "", [("/a#x"), ("/a#y")], []⟩
      else if u = ("http://h/a") then some ⟨200, "text/html", "", [], []⟩
      else none
    robots := fun _ => none
    fetchDur := fun _ => 0
    diskFails := fun _ => false }

/-- Crawl of the fragment-dedup scenario. -/
def c7run : CrawlOutcome := crawlRun exCfg c7Site [("http://h/")] 10 [] [] [] 0

/-- Request times to host `h`, in issue order. -/
def hostTimes (log : List (List Char × ℚ)) (h : List Char) : List ℚ :=
  (log.filter (fun e => decide (e.1 = h))).map Prod.snd

/-- Consecutive elements at least `gap` apart. -/
def Spaced (gap : ℚ) (ts : List ℚ) : Prop :=
  List.Chain' (fun a b => a + gap ≤ b) ts

/-- Rate-limiter invariant of the crawl loop: per host, logged request
times are spaced, the `last` map holds the latest logged time, and `last`
never runs ahead of the clock. -/
def RateInv (gap : ℚ) (st : CrawlState) : Prop :=
  ∀ h, Spaced gap (hostTimes st.reqLog h) ∧
    ((hostTimes st.reqLog h).getLast?).getD 0 = lookupLast st.last h ∧
    lookupLast st.last h ≤ st.clock

/-- The canonical shape of `_norm_url` output:
`scheme://host[:port]path[?query]`. -/
def renderNorm (scheme host : List Char) (port : Option Nat) (path query : List Char) :
    List Char :=
  scheme ++ ':' :: '/' :: '/' :: renderHostPort host port ++ path ++ renderQuery query

/-- Well-formedness of the components of a `_norm_url` output: letters-only
lower-case `http*` scheme, delimiter-free lower-case nonempty host, a kept
port that is bounded, nonzero and not the scheme default, a delimiter-free
path starting with `/` (or empty), and a `#`-free query. -/
def NormCanon (s hs : List Char) (po : Option Nat) (pa q : List Char) : Prop :=
  s ≠ [] ∧ (∀ c ∈ s, isAlphaChar c = true) ∧ lowerList s = s ∧
  leadsWith httpChars s = true ∧
  hs ≠ [] ∧ (∀ c ∈ hs, netlocEnd c = false ∧ forbiddenHostChar c = false ∧ c ≠ ':') ∧
  lowerList hs = hs ∧
  (∀ pt ∈ po, pt ≤ 65535 ∧ pt ≠ 0 ∧
    ¬ ((s = httpChars ∧ pt = 80) ∨ (s = httpsChars ∧ pt = 443))) ∧
  (∀ c ∈ pa, c ≠ '#' ∧ c ≠ '?') ∧ (pa = [] ∨ ∃ t, pa = '/' :: t) ∧
  (∀ c ∈ q, c ≠ '#')

/-- The spec's site graph: the pages a fetched page links to, i.e. the
normalized anchor hrefs of the response (no domain or robots filtering —
reachability as the claim states it). -/
def siteSuccs (site : Site) (u : String) : List String :=
  match site.fetch u with
  | some r => parse_links u r.hrefs
  | none => []

/-- Spec-side reachability in the site graph from the seed set. -/
inductive SiteReachable (site : Site) (seeds : List String) : String → Prop
  | seed {u : String} : u ∈ seeds → SiteReachable site seeds u
  | step {u v : String} : SiteReachable site seeds u → v ∈ siteSuccs site u →
      SiteReachable site seeds v

/-- Config for the C4 scenarios: cap of two pages, only host `a.com`
allowed, no sitemaps. -/
def c4Cfg : CrawlConfig :=
  { allow_domains := [("a.com")], obey_robots_txt := true,
    rate_limit_per_domain := 1, max_pages := 2, include_subdomains := true,
    use_sitemaps := false }

/-- A site whose seed page links only to `b.com` pages: four pages are
reachable in the site graph, but all links are outside the allow-list. -/
def c4cSite : Site :=
  { fetch := fun u =>
      if u = ("http://a.com/") then
        some ⟨200, "text/html", "",
          [("http://b.com/1"), ("http://b.com/2"), ("http://b.com/3")], []⟩
      else if u = ("http://b.com/1") ∨ u = ("http://b.com/2")
          ∨ u = ("http://b.com/3") then
        some ⟨200, "text/html", "", [], []⟩
      else none
    robots := fun _ => none
    fetchDur := fun _ => 0
    diskFails := fun _ => false }

/-- Initial state of the starved-frontier crawl. -/
def c4cInit : CrawlState := crawlInit c4Cfg c4cSite [("http://a.com/")] [] [] [] 0

/-- Final state of the starved-frontier crawl. -/
def c4cFinal : CrawlState := outState (crawlLoop c4Cfg c4cSite 5 c4cInit)

/-- A site whose seed page links to three further `a.com` pages, so the
frontier outlives the cap. -/
def c4wSite : Site :=
  { fetch := fun u =>
      if u = ("http://a.com/") then
        some ⟨200, "text/html", "",
          [("http://a.com/1"), ("http://a.com/2"), ("http://a.com/3")], []⟩
      else if u = ("http://a.com/1") ∨ u = ("http://a.com/2")
          ∨ u = ("http://a.com/3") then
        some ⟨200, "text/html", "", [], []⟩
      else none
    robots := fun _ => none
    fetchDur := fun _ => 0
    diskFails := fun _ => false }

/-- Initial state of the cap-hitting crawl. -/
def c4wInit : CrawlState := crawlInit c4Cfg c4wSite [("http://a.com/")] [] [] [] 0

/-- Final state of the cap-hitting crawl. -/
def c4wFinal : CrawlState := outState (crawlLoop c4Cfg c4wSite 10 c4wInit)

theorem splitFirst_of_not_mem (sep : Char) (l : List Char) (h : sep ∉ l) :
    splitFirst sep l = (l, none) := by
  induction l with
  | nil => rfl
  | cons c cs ih =>
    simp only [List.mem_cons, not_or] at h
    have hc : ¬ c = sep := fun hc => h.1 hc.symm
    simp only [splitFirst, if_neg hc]
    rw [ih h.2]

theorem splitFirst_append (sep : Char) (l₁ l₂ : List Char) (h : sep ∉ l₁) :
    splitFirst sep (l₁ ++ sep :: l₂) = (l₁, some l₂) := by
  induction l₁ with
  | nil => simp [splitFirst]
  | cons c cs ih =>
    simp only [List.mem_cons, not_or] at h
    have hc : ¬ c = sep := fun hc => h.1 hc.symm
    simp only [List.cons_append, splitFirst, if_neg hc, List.append_eq]
    rw [ih h.2]

theorem mem_splitFirst_fst (sep : Char) (l : List Char) (x : Char)
    (hx : x ∈ (splitFirst sep l).1) : x ∈ l ∧ x ≠ sep := by
  induction l with
  | nil => simp [splitFirst] at hx
  | cons c cs ih =>
    by_cases hc : c = sep
    · simp [splitFirst, hc] at hx
    · simp only [splitFirst, if_neg hc] at hx
      rw [List.mem_cons] at hx
      rcases hx with hx1 | hx1
      · exact ⟨by simp [hx1], hx1 ▸ hc⟩
      · exact ⟨List.mem_cons_of_mem _ (ih hx1).1, (ih hx1).2⟩

/-! ## C3 — content classification -/

/-- C3 counterexample: a response with `Content-Type:
application/octet-stream` for URL `https://example.org/report.pdf?v=2` is
classified neither pdf nor html by the main crawler's `is_pdf`/`is_html`
tests — the query string defeats `url.lower().endswith(".pdf")` — so the
claim that it "is classified as pdf" is false on the code. -/
theorem c3_counterexample :
    crawlIsPdf ("https://example.org/report.pdf?v=2")
      (ctHeaderNorm ("application/octet-stream")) = false ∧
    crawlIsHtml ("https://example.org/report.pdf?v=2")
      (ctHeaderNorm ("application/octet-stream")) = false := by
  exact ⟨by decide, by decide⟩

/-- C3 amended: the scripts' `looks_pdf` classifier does classify
`.../report.pdf?v=2` as pdf (its regex allows a query string), while the
main crawler's `is_pdf` does not; a response with
`Content-Type: text/html; charset=utf-8` is classified html by the main
crawler. -/
theorem c3_classification :
    looks_pdf ("https://example.org/report.pdf?v=2") = true ∧
    crawlIsPdf ("https://example.org/report.pdf?v=2")
      (ctHeaderNorm ("application/octet-stream")) = false ∧
    crawlIsHtml ("https://example.org/page")
      (ctHeaderNorm ("text/html; charset=utf-8")) = true := by
  exact ⟨by decide, by decide, by decide⟩

/-! ## C10 — raw seeds bypass normalization -/

/-- C10: `_norm_url(s, "")` always returns `None` (the empty href is
rejected first), so the `or s` fallback always enqueues the raw seed
string unchanged, provided it is nonempty and passes the domain policy —
the frontier can hence hold a seed violating the normalized-URL invariant
(fragments, default ports kept). -/
theorem c10_seed_raw_enqueued (s : String) (cfg : CrawlConfig) (site : Site)
    (seeds : List String) (m : List ManifestEntry) (u0 : List String)
    (st0 : List (String × String)) (c0 : ℚ)
    (hs : s ∈ seeds) (hne : ¬ s = (""))
    (hd : domain_allowed s cfg.allow_domains cfg.include_subdomains = true) :
    norm_url s ("") = none ∧ s ∈ (crawlInit cfg site seeds m u0 st0 c0).q := by
  have hnorm : norm_url s ("") = none := rfl
  refine ⟨hnorm, ?_⟩
  have hseed : seedNorm s = s := by
    simp [seedNorm, hnorm]
  have hmem : s ∈ seedsNorm cfg seeds := by
    unfold seedsNorm
    rw [List.mem_filter]
    refine ⟨hseed ▸ List.mem_map_of_mem seedNorm hs, ?_⟩
    simp [hne, hd]
  unfold crawlInit
  simp only [List.mem_append]
  exact Or.inr hmem

/-- Witness for C10: the fragment-carrying seed `http://h/a.html#x` passes
the domain policy and is enqueued raw. -/
theorem c10_witness :
    (("http://h/a.html#x") ∈ [("http://h/a.html#x")] ∧
      ¬ (("http://h/a.html#x") : String) = ("") ∧
      domain_allowed ("http://h/a.html#x") exCfg.allow_domains
        exCfg.include_subdomains = true) ∧
    (norm_url ("http://h/a.html#x") ("") = none ∧
      ("http://h/a.html#x") ∈
        (crawlInit exCfg exSiteHtml [("http://h/a.html#x")] [] [] [] 0).q) :=
  ⟨⟨by decide, by decide, by decide⟩,
    c10_seed_raw_enqueued ("http://h/a.html#x") exCfg exSiteHtml
      [("http://h/a.html#x")] [] [] [] 0 (by decide) (by decide) (by decide)⟩


/-! ## C1 — resumability -/

/-- C1 counterexample: running the main crawl a second time against the
identical seed and unchanged single-page site performs one Fetcher
invocation (not zero) and grows the manifest from one line to two — the
main loop consults no existence check. -/
theorem c1_counterexample :
    (outState c1firstRun).manifest.length = 1 ∧
    (outState c1secondRun).fetchLog.length = 1 ∧
    ¬ (outState c1secondRun).fetchLog.length = 0 ∧
    (outState c1secondRun).manifest.length = 2 := by
  exact ⟨by decide, by decide, by decide, by decide⟩

/-- C1 amended: the existence check (blob present with size > 0 and sidecar
present) lives in the sitemaps-first downloader: `download_one` then
succeeds with zero Fetcher invocations and an unchanged file system.  The
main crawl loop performs no such check: its second run over the same
single-page site re-fetches the page. -/
theorem c1_resumability :
    (∀ (dl : DlSite) (files : List (String × Nat)) (url : String),
        alreadyPersisted files url = true →
        download_one dl files url =
          (⟨url, (target_paths_for url).1, true,
              (fileSize files (target_paths_for url).1).getD 0⟩, files, [])) ∧
    (outState c1secondRun).fetchLog = [("http://h/p.html")] := by
  constructor
  · intro dl files url hp
    simp [download_one, hp]
  · decide

/-- Witness for C1: a persisted pdf target is skipped without fetching. -/
theorem c1_witness :
    alreadyPersisted exFiles ("https://h/d.pdf") = true ∧
    download_one exDl exFiles ("https://h/d.pdf") =
      (⟨("https://h/d.pdf"), (target_paths_for ("https://h/d.pdf")).1, true,
          (fileSize exFiles (target_paths_for ("https://h/d.pdf")).1).getD 0⟩,
        exFiles, []) :=
  ⟨by decide, c1_resumability.1 exDl exFiles ("https://h/d.pdf") (by decide)⟩

/-! ## C6 — persistence failures -/

/-- C6 counterexample: a disk failure on the first page's blob write aborts
the main crawl — the remaining frontier (the second page) is never
processed, contradicting the claim that the error is caught and the crawl
continues. -/
theorem c6_counterexample :
    isAborted c6run = true ∧
    (outState c6run).q = [("http://h/q.html")] ∧
    ¬ ("http://h/q.html") ∈ (outState c6run).fetchLog ∧
    (outState c6run).manifest = [] := by
  exact ⟨by decide, by decide, by decide, by decide⟩

/-- C6 amended: in `scripts/crawl_pdfs.py`'s worker the blob/sidecar write
is wrapped in try/except: on a disk failure nothing is counted as saved,
no record lands, and the worker continues (no failure counter is kept
either).  In the main crawl loop `_save_blob` is not wrapped: a disk
failure on the blob write surfaces as an uncaught exception, the document
gets no manifest entry, and the crawl aborts instead of continuing. -/
theorem c6_persistence :
    (∀ (diskFails : String → Bool) (files : List (String × Nat))
        (url : String) (bodyLen : Nat),
        diskFails (sha16 url ++ (".pdf")) = true →
        worker_save_pdf diskFails files url bodyLen = (0, files)) ∧
    (∀ (cfg : CrawlConfig) (site : Site) (st : CrawlState) (url : String)
        (rest : List String) (r : Response),
        st.q = url :: rest → st.fetched < cfg.max_pages →
        ¬ (cfg.obey_robots_txt = true ∧ robotsAllowed site url = false) →
        site.fetch url = some r →
        (crawlIsPdf url (ctHeaderNorm r.contentType) = true ∨
          crawlIsHtml url (ctHeaderNorm r.contentType) = true) →
        site.diskFails (saveBlobPaths url (ctHeaderNorm r.contentType)).1 = true →
        ∃ stf, crawlStep cfg site st = .fail stf ∧
          stf.manifest = st.manifest ∧ stf.q = rest ∧
          (∀ n, crawlLoop cfg site (n + 1) st = .aborted stf)) := by
  constructor
  · intro diskFails files url bodyLen hfail
    simp [worker_save_pdf, workerSaveAttempt, hfail]
  · intro cfg site st url rest r hq hcap hrob hf hclass hfail
    have hflag : (crawlIsPdf url (ctHeaderNorm r.contentType)
        || crawlIsHtml url (ctHeaderNorm r.contentType)) = true := by
      rcases hclass with h | h <;> simp [h]
    have hstep : crawlStep cfg site st = .fail (fetchedState cfg site st url rest) := by
      simp only [crawlStep, hq]
      rw [if_neg (not_le.mpr hcap), if_neg hrob]
      simp only [hf, hflag, if_true, save_blob]
      simp [hfail, fetchedState]
    refine ⟨fetchedState cfg site st url rest, hstep, by simp [fetchedState],
      by simp [fetchedState], ?_⟩
    intro n
    simp [crawlLoop, hstep]

/-- Witness for C6: the worker swallows a concrete failing write; the main
loop aborts on the concrete failing site. -/
theorem c6_witness :
    ((fun p => decide (p = ("u.pdf"))) (sha16 ("u") ++ (".pdf")) = true ∧
      worker_save_pdf (fun p => decide (p = ("u.pdf"))) [] ("u") 3 = (0, [])) ∧
    ∃ stf, crawlStep exCfg c6Site
        (crawlInit exCfg c6Site [("http://h/p.html"), ("http://h/q.html")] [] [] [] 0)
        = .fail stf ∧
      stf.manifest = (crawlInit exCfg c6Site
        [("http://h/p.html"), ("http://h/q.html")] [] [] [] 0).manifest ∧
      stf.q = [("http://h/q.html")] ∧
      (∀ n, crawlLoop exCfg c6Site (n + 1)
        (crawlInit exCfg c6Site [("http://h/p.html"), ("http://h/q.html")] [] [] [] 0)
        = .aborted stf) :=
  ⟨⟨by decide, c6_persistence.1 (fun p => decide (p = ("u.pdf"))) [] ("u") 3 (by decide)⟩,
    c6_persistence.2 exCfg c6Site _ ("http://h/p.html") [("http://h/q.html")]
      ⟨200, "text/html", "<body>", [], []⟩ (by decide) (by decide) (by decide)
      (by decide) (Or.inr (by decide)) (by decide)⟩

/-! ## C5 counterexample — the 0.001 clamp on the configured rate -/

/-- C5 counterexample: at a configured rate of `1/2048` requests/second the
limiter's interval is `1/max(r, 0.001) = 1000` seconds, so two consecutive
requests to host `h` are separated by 1000 seconds — less than the
`1/r = 2048` seconds the claim asserts for every configured rate. -/
theorem c5_counterexample :
    (outState c5run).reqLog = [(("h").toList, 1000), (("h").toList, 2000)] ∧
    minInterval c5Cfg.rate_limit_per_domain = 1000 ∧
    ((2000 : ℚ) - 1000) < 1 / c5Cfg.rate_limit_per_domain := by
  refine ⟨by with_unfolding_all rfl, by with_unfolding_all rfl,
    of_decide_eq_true (by with_unfolding_all rfl)⟩

/-! ## C7 counterexample — seeds are enqueued unconditionally -/

/-- C7 counterexample: a seed listed twice is appended to the frontier
twice (`q.append(s)` for seeds has no seen-check), so within a single run a
URL can be enqueued more than once. -/
theorem c7_counterexample :
    List.count ("http://h/p.html")
      (crawlInit exCfg exSiteHtml
        [("http://h/p.html"), ("http://h/p.html")] [] [] [] 0).enqLog = 2 ∧
    List.count ("http://h/p.html")
      (crawlInit exCfg exSiteHtml
        [("http://h/p.html"), ("http://h/p.html")] [] [] [] 0).q = 2 := by
  exact ⟨by decide, by decide⟩

/-! ## The shape of one crawl-loop iteration -/

theorem enqueueOne_bookkeeping (cfg : CrawlConfig) (st : CrawlState) (n : String) :
    (enqueueOne cfg st n).fetchLog = st.fetchLog ∧
    (enqueueOne cfg st n).reqLog = st.reqLog ∧
    (enqueueOne cfg st n).fetched = st.fetched ∧
    (enqueueOne cfg st n).clock = st.clock ∧
    (enqueueOne cfg st n).last = st.last ∧
    (enqueueOne cfg st n).manifest = st.manifest ∧
    (enqueueOne cfg st n).saved = st.saved := by
  unfold enqueueOne
  split_ifs <;> simp

theorem enqueueLinks_bookkeeping (cfg : CrawlConfig) (b : String) (hs : List String)
    (st : CrawlState) :
    (enqueueLinks cfg b hs st).fetchLog = st.fetchLog ∧
    (enqueueLinks cfg b hs st).reqLog = st.reqLog ∧
    (enqueueLinks cfg b hs st).fetched = st.fetched ∧
    (enqueueLinks cfg b hs st).clock = st.clock ∧
    (enqueueLinks cfg b hs st).last = st.last ∧
    (enqueueLinks cfg b hs st).manifest = st.manifest ∧
    (enqueueLinks cfg b hs st).saved = st.saved := by
  unfold enqueueLinks
  generalize parse_links b hs = L
  induction L generalizing st with
  | nil => simp
  | cons a L ih =>
    rw [List.foldl_cons]
    rcases ih (enqueueOne cfg st a) with ⟨h1, h2, h3, h4, h5, h6, h7⟩
    rcases enqueueOne_bookkeeping cfg st a with ⟨g1, g2, g3, g4, g5, g6, g7⟩
    exact ⟨h1.trans g1, h2.trans g2, h3.trans g3, h4.trans g4, h5.trans g5,
      h6.trans g6, h7.trans g7⟩

/-- Anatomy of a non-`stop` iteration: the queue's head `url` is popped
below the cap, and either robots drops it (only the queue changes), or it
is rate-limited and fetched — all bookkeeping fields advancing as in
`fetchedState` — and the iteration result is that mid-state, possibly with
links of an html response enqueued on top. -/
theorem crawlStep_shape (cfg : CrawlConfig) (site : Site) (st st' : CrawlState)
    (h : crawlStep cfg site st = .next st' ∨ crawlStep cfg site st = .fail st') :
    ∃ url rest, st.q = url :: rest ∧ st.fetched < cfg.max_pages ∧
      ((cfg.obey_robots_txt = true ∧ robotsAllowed site url = false ∧
          st' = { st with q := rest }) ∨
       ((cfg.obey_robots_txt = true → robotsAllowed site url = true) ∧
        ∃ stm : CrawlState,
          (st' = stm ∨ ∃ r, site.fetch url = some r ∧
            crawlIsHtml url (ctHeaderNorm r.contentType) = true ∧
            st' = enqueueLinks cfg url r.hrefs stm) ∧
          stm.q = rest ∧ stm.seen = st.seen ∧ stm.enqLog = st.enqLog ∧
          stm.fetchLog = st.fetchLog ++ [url] ∧
          stm.fetched = st.fetched + 1 ∧
          stm.reqLog = st.reqLog ++ [(netlocOf url.toList,
            (rateWait (minInterval cfg.rate_limit_per_domain) (netlocOf url.toList)
              ⟨st.clock, st.last⟩).clock)] ∧
          stm.clock = (rateWait (minInterval cfg.rate_limit_per_domain)
            (netlocOf url.toList) ⟨st.clock, st.last⟩).clock + site.fetchDur url ∧
          stm.last = (rateWait (minInterval cfg.rate_limit_per_domain)
            (netlocOf url.toList) ⟨st.clock, st.last⟩).last)) := by
  rcases hq : st.q with _ | ⟨url, rest⟩
  · rcases h with h | h <;> simp [crawlStep, hq] at h
  · by_cases hcap : cfg.max_pages ≤ st.fetched
    · rcases h with h | h <;> simp [crawlStep, hq, hcap] at h
    · refine ⟨url, rest, rfl, not_le.mp hcap, ?_⟩
      by_cases hrob : cfg.obey_robots_txt = true ∧ robotsAllowed site url = false
      · left
        refine ⟨hrob.1, hrob.2, ?_⟩
        rcases h with h | h <;>
          · simp only [crawlStep, hq] at h
            rw [if_neg hcap, if_pos hrob] at h
            first
            | (injection h with h; exact h.symm)
            | exact absurd h (by simp)
      · right
        constructor
        · intro hobey
          cases hb : robotsAllowed site url with
          | false => exact absurd ⟨hobey, hb⟩ hrob
          | true => rfl
        · rcases hf : site.fetch url with _ | r
          · have h' : st' = fetchedState cfg site st url rest := by
              rcases h with h | h <;>
                · simp only [crawlStep, hq] at h
                  rw [if_neg hcap, if_neg hrob] at h
                  simp only [hf] at h
                  first
                  | (injection h with h; exact h.symm)
                  | exact absurd h (by simp)
            exact ⟨fetchedState cfg site st url rest, Or.inl h', by simp [fetchedState],
              by simp [fetchedState], by simp [fetchedState], by simp [fetchedState],
              by simp [fetchedState], by simp [fetchedState], by simp [fetchedState],
              by simp [fetchedState]⟩
          · set ct := ctHeaderNorm r.contentType with hct
            by_cases hph : (crawlIsPdf url ct || crawlIsHtml url ct) = true
            · rcases hsv : save_blob site (fetchedState cfg site st url rest).store url
                  r.body ct with store1 | ⟨path, store1⟩
              · -- write failure: the iteration fails at the mid-state
                have h' : st' = { fetchedState cfg site st url rest with store := store1 } := by
                  rcases h with h | h <;>
                    · simp only [crawlStep, hq] at h
                      rw [if_neg hcap, if_neg hrob] at h
                      simp only [hf, ← hct, hph, eq_self_iff_true, if_true, hsv] at h
                      first
                      | (injection h with h; exact h.symm)
                      | exact absurd h (by simp)
                refine ⟨{ fetchedState cfg site st url rest with store := store1 },
                  Or.inl h', ?_, ?_, ?_, ?_, ?_, ?_, ?_, ?_⟩ <;> simp [fetchedState]
              · -- write success
                by_cases hh : crawlIsHtml url ct = true
                · have h' : st' = enqueueLinks cfg url r.hrefs
                      (savedState (fetchedState cfg site st url rest) url ct path store1) := by
                    rcases h with h | h <;>
                      · simp only [crawlStep, hq] at h
                        rw [if_neg hcap, if_neg hrob] at h
                        simp only [hf, ← hct, hph, eq_self_iff_true, if_true, hsv] at h
                        simp only [hh, eq_self_iff_true, if_true] at h
                        first
                        | (injection h with h; exact h.symm)
                        | exact absurd h (by simp)
                  refine ⟨savedState (fetchedState cfg site st url rest) url ct path store1,
                    Or.inr ⟨r, by simp [hf], hh, h'⟩, ?_, ?_, ?_, ?_, ?_, ?_, ?_, ?_⟩ <;>
                    simp [savedState, fetchedState]
                · have hhf : crawlIsHtml url ct = false := (Bool.not_eq_true _).mp hh
                  have h' : st' = savedState (fetchedState cfg site st url rest)
                      url ct path store1 := by
                    rcases h with h | h <;>
                      · simp only [crawlStep, hq] at h
                        rw [if_neg hcap, if_neg hrob] at h
                        simp only [hf, ← hct, hph, eq_self_iff_true, if_true, hsv] at h
                        simp only [hhf, Bool.false_eq_true, if_false] at h
                        first
                        | (injection h with h; exact h.symm)
                        | exact absurd h (by simp)
                  refine ⟨savedState (fetchedState cfg site st url rest) url ct path store1,
                    Or.inl h', ?_, ?_, ?_, ?_, ?_, ?_, ?_, ?_⟩ <;>
                    simp [savedState, fetchedState]
            · have hphf : (crawlIsPdf url ct || crawlIsHtml url ct) = false :=
                (Bool.not_eq_true _).mp hph
              have hhf : crawlIsHtml url ct = false := (Bool.or_eq_false_iff.mp hphf).2
              have h' : st' = fetchedState cfg site st url rest := by
                rcases h with h | h <;>
                  · simp only [crawlStep, hq] at h
                    rw [if_neg hcap, if_neg hrob] at h
                    simp only [hf, ← hct, hphf, Bool.false_eq_true, if_false] at h
                    simp only [hhf, Bool.false_eq_true, if_false] at h
                    first
                    | (injection h with h; exact h.symm)
                    | exact absurd h (by simp)
              exact ⟨fetchedState cfg site st url rest, Or.inl h', by simp [fetchedState],
                by simp [fetchedState], by simp [fetchedState], by simp [fetchedState],
                by simp [fetchedState], by simp [fetchedState], by simp [fetchedState],
                by simp [fetchedState]⟩

/-! ## C2 — robots enforcement is structurally dead -/

/-- A left fold whose step returns its accumulator unchanged is the
identity. -/
theorem foldl_const_id {α β : Type} (f : β → α → β) (hf : ∀ b a, f b a = b) :
    ∀ (l : List α) (b : β), List.foldl f b l = b := by
  intro l
  induction l with
  | nil => intro b; rfl
  | cons a t ih =>
    intro b
    rw [List.foldl_cons, hf]
    exact ih b

/-- The discovery phase of every crawl fetches no sitemap and discovers
nothing: the per-netloc sitemap cache is only ever written by the
exception branch of `RobotsCache.allowed`. -/
theorem discoverFromSitemaps_empty (site : Site) (seedsN : List String) :
    discoverFromSitemaps site seedsN = ([], []) := by
  unfold discoverFromSitemaps
  exact foldl_const_id _ (fun b a => rfl) seedsN ([], [])

/-- C2 (code bug): `RobotsCache.allowed` calls `self.client.get` without
`await`, and `crawl` passes an `httpx.AsyncClient`, so the call returns a
coroutine, `resp.status_code` raises, and the `except Exception` handler
parses an empty robots file and records no sitemaps.  Robots enforcement is
therefore structurally dead: `allowed` accepts every URL whatever
robots.txt the host serves, and the sitemap-discovery phase never fetches a
single sitemap.  Concretely, host `h` serves a robots.txt whose parsed
rules reject `/p1.html` (the crawler's own parser applied to the served
lines), yet a crawl with `obey_robots_txt = true` fetches
`http://h/p1.html`, and the declared sitemap is never fetched. -/
theorem c2_robots_bug :
    (∀ (site : Site) (url : String), robotsAllowed site url = true) ∧
    (∀ (site : Site) (seedsN : List String),
        discoverFromSitemaps site seedsN = ([], [])) ∧
    c2Site.robots ("h") = some c2Lines ∧
    can_fetch (parseRobotsLines (c2Lines.map String.toList)) USER_AGENT.toList
      ("http://h/p1.html").toList = false ∧
    c2Cfg.obey_robots_txt = true ∧
    ("http://h/p1.html") ∈ (outState c2run).fetchLog ∧
    ("https://h/sitemap.xml") ∉ (outState c2run).fetchLog := by
  refine ⟨fun site url => rfl, discoverFromSitemaps_empty, rfl, by decide, rfl,
    by decide, by decide⟩

/-! ## C7 — frontier dedup for link-discovered URLs -/

theorem should_enqueue_true (u : String) : should_enqueue u = true := by
  simp [should_enqueue]


theorem dedupFrom_refl (st : CrawlState)
    (hI : ∀ v, v ∈ st.enqLog ↔ v ∈ st.seen) : DedupFrom st st := by
  refine ⟨hI, fun v hv => hv, fun u => ⟨fun _ => rfl, fun hu => ?_⟩⟩
  have : u ∉ st.enqLog := fun hm => hu ((hI u).mp hm)
  simp [List.count_eq_zero.mpr this]

theorem dedupFrom_trans (st0 st1 st2 : CrawlState)
    (h01 : DedupFrom st0 st1) (h12 : DedupFrom st1 st2) : DedupFrom st0 st2 := by
  obtain ⟨hI1, hsub1, hcnt1⟩ := h01
  obtain ⟨hI2, hsub2, hcnt2⟩ := h12
  refine ⟨hI2, fun v hv => hsub2 v (hsub1 v hv), fun u => ⟨?_, ?_⟩⟩
  · intro hu
    rw [(hcnt2 u).1 (hsub1 u hu), (hcnt1 u).1 hu]
  · intro hu
    by_cases h1 : u ∈ st1.seen
    · rw [(hcnt2 u).1 h1]
      exact (hcnt1 u).2 hu
    · exact (hcnt2 u).2 h1

theorem enqueueOne_dedup (cfg : CrawlConfig) (st : CrawlState) (n : String)
    (hI : ∀ v, v ∈ st.enqLog ↔ v ∈ st.seen) :
    DedupFrom st (enqueueOne cfg st n) := by
  by_cases h1 : n ∈ st.seen
  · have he : enqueueOne cfg st n = st := by simp [enqueueOne, h1]
    rw [he]; exact dedupFrom_refl st hI
  by_cases h2 : domain_allowed n cfg.allow_domains cfg.include_subdomains = true
  case neg =>
    have he : enqueueOne cfg st n = st := by simp [enqueueOne, h1, h2]
    rw [he]; exact dedupFrom_refl st hI
  have he : enqueueOne cfg st n =
      { st with seen := n :: st.seen, q := st.q ++ [n], enqLog := st.enqLog ++ [n] } := by
    simp [enqueueOne, h1, h2, should_enqueue_true]
  rw [he]
  refine ⟨?_, ?_, ?_⟩
  · intro v
    simp only [List.mem_append, List.mem_cons, List.mem_singleton, List.not_mem_nil,
      or_false]
    rw [hI v]
    tauto
  · intro v hv
    simp [hv]
  · intro u
    constructor
    · intro hu
      have hne : ¬ u = n := fun he => h1 (he ▸ hu)
      simp [List.count_append, hne]
    · intro hu
      by_cases he : u = n
      · subst he
        have hnm : u ∉ st.enqLog := fun hm => h1 ((hI u).mp hm)
        simp [List.count_append, List.count_eq_zero.mpr hnm]
      · have hnm : u ∉ st.enqLog := fun hm => hu ((hI u).mp hm)
        simp [List.count_append, List.count_eq_zero.mpr hnm, he]

theorem enqueueLinks_dedup (cfg : CrawlConfig) (b : String) (hs : List String)
    (st : CrawlState) (hI : ∀ v, v ∈ st.enqLog ↔ v ∈ st.seen) :
    DedupFrom st (enqueueLinks cfg b hs st) := by
  unfold enqueueLinks
  generalize parse_links b hs = L
  induction L generalizing st with
  | nil => exact dedupFrom_refl st hI
  | cons a L ih =>
    rw [List.foldl_cons]
    have h1 := enqueueOne_dedup cfg st a hI
    exact dedupFrom_trans st (enqueueOne cfg st a) _ h1 (ih (enqueueOne cfg st a) h1.1)

theorem crawlStep_dedup (cfg : CrawlConfig) (site : Site) (st st' : CrawlState)
    (h : crawlStep cfg site st = .next st' ∨ crawlStep cfg site st = .fail st')
    (hI : ∀ v, v ∈ st.enqLog ↔ v ∈ st.seen) : DedupFrom st st' := by
  rcases crawlStep_shape cfg site st st' h with
    ⟨url, rest, hq, hcap,
      ⟨_, _, hst⟩ | ⟨_, stm, hform, _, hseen, henq, _, _, _, _, _⟩⟩
  · subst hst
    exact dedupFrom_refl { st with q := rest } hI
  · have hIm : ∀ v, v ∈ stm.enqLog ↔ v ∈ stm.seen := by
      intro v; rw [henq, hseen]; exact hI v
    have hm : DedupFrom st stm :=
      ⟨hIm, fun v hv => hseen ▸ hv, fun u =>
        ⟨fun _ => by rw [henq], fun hu => by
          rw [henq]
          have : u ∉ st.enqLog := fun hmem => hu ((hI u).mp hmem)
          simp [List.count_eq_zero.mpr this]⟩⟩
    rcases hform with rfl | ⟨r, _, _, rfl⟩
    · exact hm
    · exact dedupFrom_trans st stm _ hm (enqueueLinks_dedup cfg url r.hrefs stm hIm)

theorem crawlLoop_dedup (cfg : CrawlConfig) (site : Site) (fuel : Nat)
    (st : CrawlState) (hI : ∀ v, v ∈ st.enqLog ↔ v ∈ st.seen) :
    DedupFrom st (outState (crawlLoop cfg site fuel st)) := by
  induction fuel generalizing st with
  | zero => exact dedupFrom_refl st hI
  | succ n ih =>
    cases hs : crawlStep cfg site st with
    | stop => simpa [crawlLoop, hs, outState] using dedupFrom_refl st hI
    | fail st1 =>
      have h1 := crawlStep_dedup cfg site st st1 (Or.inr hs) hI
      simpa [crawlLoop, hs, outState] using h1
    | next st1 =>
      have h1 := crawlStep_dedup cfg site st st1 (Or.inl hs) hI
      have h2 := ih st1 h1.1
      have h3 := dedupFrom_trans st st1 _ h1 h2
      simpa [crawlLoop, hs] using h3

theorem mem_foldl_seenInsert (L : List String) (acc : List String) (v : String) :
    v ∈ L.foldl seenInsert acc ↔ v ∈ acc ∨ v ∈ L := by
  induction L generalizing acc with
  | nil => simp
  | cons a L ih =>
    rw [List.foldl_cons, ih]
    unfold seenInsert
    split_ifs with h
    · constructor
      · rintro (hv | hv)
        · exact Or.inl hv
        · exact Or.inr (List.mem_cons_of_mem _ hv)
      · rintro (hv | hv)
        · exact Or.inl hv
        · rw [List.mem_cons] at hv
          rcases hv with rfl | hv
          · exact Or.inl h
          · exact Or.inr hv
    · simp only [List.mem_cons]
      constructor
      · rintro ((hv | hv) | hv)
        · exact Or.inr (Or.inl hv)
        · exact Or.inl hv
        · exact Or.inr (Or.inr hv)
      · rintro (hv | hv | hv)
        · exact Or.inl (Or.inr hv)
        · exact Or.inl (Or.inl hv)
        · exact Or.inr hv

/-- The initial crawl state satisfies the enqueue-log/seen-set agreement. -/
theorem crawlInit_enqSeenInv (cfg : CrawlConfig) (site : Site) (seeds : List String)
    (m : List ManifestEntry) (u0 : List String) (st0 : List (String × String)) (c0 : ℚ) :
    ∀ v, v ∈ (crawlInit cfg site seeds m u0 st0 c0).enqLog ↔
      v ∈ (crawlInit cfg site seeds m u0 st0 c0).seen := by
  intro v
  unfold crawlInit
  simp only [List.mem_append, mem_foldl_seenInsert, List.not_mem_nil, false_or]
  try tauto



/-- C7 amended: link-discovered URLs are enqueued at most once per run —
a URL already seen is never re-enqueued, one not yet seen enters the
enqueue log at most once; in particular a page linking the same target via
`/a#x` and `/a#y` enqueues it exactly once.  (Seed URLs, by contrast, are
appended unconditionally: see the counterexample.) -/
theorem c7_dedup :
    (∀ (cfg : CrawlConfig) (site : Site) (fuel : Nat) (st : CrawlState),
        (∀ v, v ∈ st.enqLog ↔ v ∈ st.seen) →
        ∀ u, (u ∈ st.seen →
            List.count u (outState (crawlLoop cfg site fuel st)).enqLog
              = List.count u st.enqLog) ∧
          (u ∉ st.seen →
            List.count u (outState (crawlLoop cfg site fuel st)).enqLog ≤ 1)) ∧
    List.count ("http://h/a") (outState c7run).enqLog = 1 := by
  constructor
  · intro cfg site fuel st hI u
    exact (crawlLoop_dedup cfg site fuel st hI).2.2 u
  · decide

/-- Witness for C7: over the fragment scenario's run, the unseen target
`http://h/a` is enqueued at most once, and the seed (initially seen) keeps
its single enqueue. -/
theorem c7_witness :
    (("http://h/a") ∉ (crawlInit exCfg c7Site [("http://h/")] [] [] [] 0).seen ∧
      ("http://h/") ∈ (crawlInit exCfg c7Site [("http://h/")] [] [] [] 0).seen) ∧
    List.count ("http://h/a")
      (outState (crawlLoop exCfg c7Site 10
        (crawlInit exCfg c7Site [("http://h/")] [] [] [] 0))).enqLog ≤ 1 ∧
    List.count ("http://h/")
      (outState (crawlLoop exCfg c7Site 10
        (crawlInit exCfg c7Site [("http://h/")] [] [] [] 0))).enqLog
      = List.count ("http://h/") (crawlInit exCfg c7Site [("http://h/")] [] [] [] 0).enqLog :=
  ⟨⟨by decide, by decide⟩,
    (c7_dedup.1 exCfg c7Site 10 (crawlInit exCfg c7Site [("http://h/")] [] [] [] 0)
      (crawlInit_enqSeenInv exCfg c7Site [("http://h/")] [] [] [] 0)
      ("http://h/a")).2 (by decide),
    (c7_dedup.1 exCfg c7Site 10 (crawlInit exCfg c7Site [("http://h/")] [] [] [] 0)
      (crawlInit_enqSeenInv exCfg c7Site [("http://h/")] [] [] [] 0)
      ("http://h/")).1 (by decide)⟩

/-! ## C5 — per-host rate limiting -/




theorem lookupLast_filter_ne (l : List (List Char × ℚ)) (h h' : List Char)
    (hne : h' ≠ h) :
    lookupLast (l.filter (fun p => decide (p.1 ≠ h))) h' = lookupLast l h' := by
  induction l with
  | nil => rfl
  | cons a l ih =>
    rcases a with ⟨k, v⟩
    rw [List.filter_cons]
    by_cases hk : k = h
    · have h1 : (decide ((k, v).1 ≠ h)) = false := by simp [hk]
      simp only [h1, Bool.false_eq_true, if_false, ih]
      have h2 : ¬ k = h' := fun he => hne (by rw [← he, hk])
      rw [lookupLast, if_neg h2]
    · have h1 : (decide ((k, v).1 ≠ h)) = true := by simp [hk]
      simp only [h1, if_true]
      rw [lookupLast, lookupLast]
      by_cases h2 : k = h'
      · rw [if_pos h2, if_pos h2]
      · rw [if_neg h2, if_neg h2, ih]

theorem lookupLast_setLast_self (l : List (List Char × ℚ)) (h : List Char) (t : ℚ) :
    lookupLast (setLast l h t) h = t := by
  simp [lookupLast, setLast]

theorem lookupLast_setLast_ne (l : List (List Char × ℚ)) (h h' : List Char) (t : ℚ)
    (hne : h' ≠ h) : lookupLast (setLast l h t) h' = lookupLast l h' := by
  unfold setLast
  rw [lookupLast, if_neg (fun he => hne he.symm)]
  exact lookupLast_filter_ne l h h' hne

theorem hostTimes_append (log : List (List Char × ℚ)) (e : List Char × ℚ)
    (h : List Char) :
    hostTimes (log ++ [e]) h
      = hostTimes log h ++ (if e.1 = h then [e.2] else []) := by
  unfold hostTimes
  rw [List.filter_append, List.map_append]
  congr 1
  by_cases he : e.1 = h <;> simp [he]

theorem rateWait_clock_lower (g : ℚ) (host : List Char) (lc : LimiterClock) :
    lookupLast lc.last host + g ≤ (rateWait g host lc).clock := by
  unfold rateWait
  dsimp only
  split_ifs with h
  · have he : lc.clock + (g - (lc.clock - lookupLast lc.last host))
        = lookupLast lc.last host + g := by ring
    rw [he]
  · linarith [not_lt.mp h]

theorem rateWait_clock_mono (g : ℚ) (host : List Char) (lc : LimiterClock) :
    lc.clock ≤ (rateWait g host lc).clock := by
  unfold rateWait
  dsimp only
  split_ifs with h
  · linarith
  · exact le_refl _

theorem rateWait_last_eq (g : ℚ) (host : List Char) (lc : LimiterClock) :
    (rateWait g host lc).last = setLast lc.last host ((rateWait g host lc).clock) := rfl

/-- One iteration preserves the rate-limiter invariant. -/
theorem crawlStep_rateInv (cfg : CrawlConfig) (site : Site) (st st' : CrawlState)
    (h : crawlStep cfg site st = .next st' ∨ crawlStep cfg site st = .fail st')
    (hdur : ∀ u, 0 ≤ site.fetchDur u)
    (hI : RateInv (minInterval cfg.rate_limit_per_domain) st) :
    RateInv (minInterval cfg.rate_limit_per_domain) st' := by
  rcases crawlStep_shape cfg site st st' h with
    ⟨url, rest, hq, hcap,
      ⟨_, _, hst⟩ | ⟨_, stm, hform, _, _, _, _, _, hreq, hclock, hlast⟩⟩
  · subst hst; exact hI
  · set g := minInterval cfg.rate_limit_per_domain with hg
    set host := netlocOf url.toList with hhost
    set lc := rateWait g host ⟨st.clock, st.last⟩ with hlc
    have hm : RateInv g stm := by
      intro h'
      rcases hI h' with ⟨hs, hagree, hle⟩
      by_cases hh : host = h'
      · subst hh
        have htimes : hostTimes stm.reqLog host = hostTimes st.reqLog host ++ [lc.clock] := by
          rw [hreq, hostTimes_append]
          simp
        have hlower : lookupLast st.last host + g ≤ lc.clock :=
          rateWait_clock_lower g host ⟨st.clock, st.last⟩
        refine ⟨?_, ?_, ?_⟩
        · rw [htimes]
          unfold Spaced
          rw [List.chain'_append]
          refine ⟨hs, List.chain'_singleton _, ?_⟩
          intro x hx y hy
          rw [List.head?_cons, Option.mem_def, Option.some_inj] at hy
          subst hy
          have hx0 : ((hostTimes st.reqLog host).getLast?).getD 0 = x := by
            rw [Option.mem_def] at hx
            rw [hx]
            rfl
          rw [hagree] at hx0
          rw [← hx0]
          exact hlower
        · rw [htimes, hlast, rateWait_last_eq]
          rw [lookupLast_setLast_self]
          simp
        · rw [hlast, rateWait_last_eq, lookupLast_setLast_self, hclock]
          have := hdur url
          linarith
      · have htimes : hostTimes stm.reqLog h' = hostTimes st.reqLog h' := by
          rw [hreq, hostTimes_append, if_neg hh]
          simp
        have hlook : lookupLast stm.last h' = lookupLast st.last h' := by
          rw [hlast, rateWait_last_eq, lookupLast_setLast_ne _ _ _ _ (fun he => hh he.symm)]
        refine ⟨?_, ?_, ?_⟩
        · rw [htimes]; exact hs
        · rw [htimes, hlook]; exact hagree
        · rw [hlook, hclock]
          have h1 : st.clock ≤ lc.clock := rateWait_clock_mono g host ⟨st.clock, st.last⟩
          have h2 := hdur url
          linarith
    rcases hform with rfl | ⟨r, _, _, rfl⟩
    · exact hm
    · intro h'
      rcases enqueueLinks_bookkeeping cfg url r.hrefs stm with ⟨_, h2, _, h4, h5, _, _⟩
      rw [h2, h4, h5]
      exact hm h'

/-- The rate-limiter invariant holds at the end of any run. -/
theorem crawlLoop_rateInv (cfg : CrawlConfig) (site : Site) (fuel : Nat)
    (st : CrawlState) (hdur : ∀ u, 0 ≤ site.fetchDur u)
    (hI : RateInv (minInterval cfg.rate_limit_per_domain) st) :
    RateInv (minInterval cfg.rate_limit_per_domain)
      (outState (crawlLoop cfg site fuel st)) := by
  induction fuel generalizing st with
  | zero => exact hI
  | succ n ih =>
    cases hs : crawlStep cfg site st with
    | stop => simpa [crawlLoop, hs, outState] using hI
    | fail st1 =>
      have h1 := crawlStep_rateInv cfg site st st1 (Or.inr hs) hdur hI
      simpa [crawlLoop, hs, outState] using h1
    | next st1 =>
      have h1 := crawlStep_rateInv cfg site st st1 (Or.inl hs) hdur hI
      have h2 := ih st1 h1
      simpa [crawlLoop, hs] using h2

/-- Spacing sums: a `gap`-spaced list spans at least `(length - 1) * gap`
from first to last element. -/
theorem spaced_total (gap : ℚ) (ts : List ℚ) (hsp : Spaced gap ts) :
    ∀ a b, ts.head? = some a → ts.getLast? = some b →
      ((ts.length - 1 : ℕ) : ℚ) * gap ≤ b - a := by
  induction ts with
  | nil => intro a b ha _; simp at ha
  | cons x ts ih =>
    intro a b ha hb
    have hax : x = a := by simpa using ha
    subst hax
    cases ts with
    | nil =>
      have hbx : x = b := by simpa using hb
      subst hbx
      simp
    | cons y ts2 =>
      have hxy : x + gap ≤ y := (List.chain'_cons.mp hsp).1
      have hsp2 : Spaced gap (y :: ts2) := (List.chain'_cons.mp hsp).2
      have hb2 : (y :: ts2).getLast? = some b := by
        rwa [List.getLast?_cons_cons] at hb
      have hih := ih hsp2 y b rfl hb2
      simp only [List.length_cons, Nat.succ_sub_one] at hih ⊢
      push_cast at hih ⊢
      linarith

/-- The clamp identity: for configured rates of at least 0.001 the enforced
interval is exactly `1/r`. -/
theorem minInterval_eq_inv (r : ℚ) (hr : 1 / 1000 ≤ r) : minInterval r = 1 / r := by
  unfold minInterval
  rw [max_eq_left hr]

/-- The initial crawl state satisfies the rate-limiter invariant. -/
theorem crawlInit_rateInv (gap : ℚ) (cfg : CrawlConfig) (site : Site)
    (seeds : List String) (m : List ManifestEntry) (u0 : List String)
    (st0 : List (String × String)) (c0 : ℚ) (hc : 0 ≤ c0) :
    RateInv gap (crawlInit cfg site seeds m u0 st0 c0) := by
  intro h
  unfold crawlInit
  refine ⟨?_, ?_, ?_⟩
  · simp [hostTimes, Spaced]
  · simp [hostTimes, lookupLast]
  · simpa [lookupLast] using hc

/-- C5 amended: over any run of the main loop, consecutive requests to one
host are separated by at least `minInterval = 1/max(r, 0.001)` mock
seconds; a spaced sequence of `N` requests spans at least
`(N-1) * minInterval`, and for rates `r ≥ 0.001` (such as 2 req/s) the
interval is exactly `1/r`. -/
theorem c5_rate_limit :
    (∀ (cfg : CrawlConfig) (site : Site) (fuel : Nat) (st : CrawlState),
        (∀ u, 0 ≤ site.fetchDur u) →
        RateInv (minInterval cfg.rate_limit_per_domain) st →
        ∀ h, Spaced (minInterval cfg.rate_limit_per_domain)
          (hostTimes (outState (crawlLoop cfg site fuel st)).reqLog h)) ∧
    (∀ (gap : ℚ) (ts : List ℚ), Spaced gap ts → ∀ a b, ts.head? = some a →
        ts.getLast? = some b → ((ts.length - 1 : ℕ) : ℚ) * gap ≤ b - a) ∧
    (∀ r : ℚ, 1 / 1000 ≤ r → minInterval r = 1 / r) := by
  refine ⟨?_, ?_, ?_⟩
  · intro cfg site fuel st hdur hI h
    exact ((crawlLoop_rateInv cfg site fuel st hdur hI) h).1
  · intro gap ts hsp a b ha hb
    exact spaced_total gap ts hsp a b ha hb
  · exact minInterval_eq_inv

/-- Witness for C5: the two-seed run at 2 req/s has its requests to host
`h` half a second apart; the spacing law applied to its request times gives
the `(N-1)/2` lower bound; and `minInterval 2 = 1/2`. -/
theorem c5_witness :
    (∀ h, Spaced (minInterval exCfg.rate_limit_per_domain)
      (hostTimes (outState (crawlLoop exCfg exSiteHtml 10
        (crawlInit exCfg exSiteHtml [("http://h/a"), ("http://h/b")] [] [] [] 0))).reqLog h)) ∧
    (Spaced ((1 : ℚ) / 2) [(1 : ℚ) / 2, 1] ∧
      ((([(1 : ℚ) / 2, 1].length - 1 : ℕ) : ℚ) * (1 / 2) ≤ 1 - 1 / 2)) ∧
    ((1 : ℚ) / 1000 ≤ 2 ∧ minInterval 2 = 1 / 2) := by
  refine ⟨?_, ⟨?_, ?_⟩, ?_, ?_⟩
  · exact c5_rate_limit.1 exCfg exSiteHtml 10 _ (fun u => le_refl 0)
      (crawlInit_rateInv _ exCfg exSiteHtml [("http://h/a"), ("http://h/b")] [] [] [] 0
        (le_refl 0))
  · unfold Spaced
    refine List.chain'_cons.mpr ⟨by norm_num, List.chain'_singleton _⟩
  · exact c5_rate_limit.2.1 ((1 : ℚ) / 2) [(1 : ℚ) / 2, 1]
      (List.chain'_cons.mpr ⟨by norm_num, List.chain'_singleton _⟩)
      ((1 : ℚ) / 2) 1 rfl rfl
  · norm_num
  · exact c5_rate_limit.2.2 2 (by norm_num)

/-! ## C9 — the page cap counts fetch attempts -/

/-- C9: a dequeued URL that passes the robots check increments `fetched`
even when the request fails (`_fetch` returns `None`) or the response is
classified neither html nor pdf; in those cases nothing is persisted
(manifest and `saved` unchanged), so `max_pages` bounds fetch attempts,
not saved documents. -/
theorem c9_cap_counts_attempts (cfg : CrawlConfig) (site : Site)
    (st : CrawlState) (url : String) (rest : List String)
    (hq : st.q = url :: rest) (hcap : st.fetched < cfg.max_pages)
    (hrob : ¬ (cfg.obey_robots_txt = true ∧ robotsAllowed site url = false))
    (hskip : site.fetch url = none ∨
      ∃ r, site.fetch url = some r ∧
        crawlIsPdf url (ctHeaderNorm r.contentType) = false ∧
        crawlIsHtml url (ctHeaderNorm r.contentType) = false) :
    ∃ st', crawlStep cfg site st = .next st' ∧
      st'.fetched = st.fetched + 1 ∧ st'.manifest = st.manifest ∧
      st'.saved = st.saved ∧ st'.fetchLog = st.fetchLog ++ [url] := by
  have hstep : crawlStep cfg site st = .next (fetchedState cfg site st url rest) := by
    simp only [crawlStep, hq]
    rw [if_neg (not_le.mpr hcap), if_neg hrob]
    rcases hskip with hf | ⟨r, hf, hpdf, hhtml⟩
    · simp [hf]
    · simp [hf, hpdf, hhtml]
  exact ⟨fetchedState cfg site st url rest, hstep, by simp [fetchedState],
    by simp [fetchedState], by simp [fetchedState], by simp [fetchedState]⟩

/-- Witness for C9: a state whose head URL's request fails. -/
theorem c9_witness :
    ((crawlInit exCfg exSiteHtml [("http://h/nope")] [] [] [] 0).q
        = ("http://h/nope") :: [] ∧
      (crawlInit exCfg exSiteHtml [("http://h/nope")] [] [] [] 0).fetched
        < exCfg.max_pages ∧
      exSiteHtml.fetch ("http://h/nope") = none) ∧
    ∃ st', crawlStep exCfg exSiteHtml
        (crawlInit exCfg exSiteHtml [("http://h/nope")] [] [] [] 0) = .next st' ∧
      st'.fetched = (crawlInit exCfg exSiteHtml [("http://h/nope")] [] [] [] 0).fetched + 1 ∧
      st'.manifest = (crawlInit exCfg exSiteHtml [("http://h/nope")] [] [] [] 0).manifest ∧
      st'.saved = (crawlInit exCfg exSiteHtml [("http://h/nope")] [] [] [] 0).saved ∧
      st'.fetchLog = (crawlInit exCfg exSiteHtml [("http://h/nope")] [] [] [] 0).fetchLog
        ++ [("http://h/nope")] :=
  ⟨⟨by decide, by decide, by decide⟩,
    c9_cap_counts_attempts exCfg exSiteHtml _ ("http://h/nope") [] (by decide)
      (by decide) (by decide) (Or.inl (by decide))⟩

/-! ## C8 — normalization idempotence: character and digit facts -/

theorem lowerLookup_mem (ps : List (Char × Char)) (c d : Char)
    (h : lowerLookup ps c = some d) : (c, d) ∈ ps := by
  induction ps with
  | nil => simp [lowerLookup] at h
  | cons p ps ih =>
    rcases p with ⟨a, b⟩
    rw [lowerLookup] at h
    by_cases hc : c = a
    · rw [if_pos hc] at h
      subst hc
      rw [Option.some_inj] at h
      subst h
      exact List.mem_cons_self _ _
    · rw [if_neg hc] at h
      exact List.mem_cons_of_mem _ (ih h)

theorem lowerPairs_snd_mem : ∀ pr ∈ lowerPairs, pr.2 ∈ lowerAsciiChars := by decide

theorem lowerAscii_lookup_none :
    ∀ d ∈ lowerAsciiChars, lowerLookup lowerPairs d = none := by decide

theorem lowerAscii_alpha : ∀ d ∈ lowerAsciiChars, isAlphaChar d = true := by decide

theorem lowerAscii_plain : ∀ d ∈ lowerAsciiChars,
    netlocEnd d = false ∧ forbiddenHostChar d = false ∧ d ≠ ':' ∧ d ≠ '#' ∧ d ≠ '?' := by
  decide

/-- `lowerChar` either fixes its argument or lands in the lowercase
letters. -/
theorem lowerChar_cases (c : Char) :
    lowerChar c = c ∨ lowerChar c ∈ lowerAsciiChars := by
  unfold lowerChar
  rcases hl : lowerLookup lowerPairs c with _ | d
  · exact Or.inl rfl
  · exact Or.inr (lowerPairs_snd_mem _ (lowerLookup_mem _ _ _ hl))

theorem lowerChar_fix_of_lookup_none (d : Char)
    (h : lowerLookup lowerPairs d = none) : lowerChar d = d := by
  unfold lowerChar
  rw [h]

theorem lowerChar_idem (c : Char) : lowerChar (lowerChar c) = lowerChar c := by
  rcases lowerChar_cases c with h | h
  · rw [h]; exact h
  · exact lowerChar_fix_of_lookup_none _ (lowerAscii_lookup_none _ h)

theorem lowerList_idem (l : List Char) : lowerList (lowerList l) = lowerList l := by
  unfold lowerList
  rw [List.map_map]
  exact List.map_congr_left (fun c _ => lowerChar_idem c)

theorem lowerChar_alpha (c : Char) (h : isAlphaChar c = true) :
    isAlphaChar (lowerChar c) = true := by
  rcases lowerChar_cases c with hc | hc
  · rw [hc]; exact h
  · exact lowerAscii_alpha _ hc

theorem lowerChar_plain (c : Char)
    (h : netlocEnd c = false ∧ forbiddenHostChar c = false ∧ c ≠ ':') :
    netlocEnd (lowerChar c) = false ∧ forbiddenHostChar (lowerChar c) = false ∧
      lowerChar c ≠ ':' := by
  rcases lowerChar_cases c with hc | hc
  · rw [hc]; exact h
  · rcases lowerAscii_plain _ hc with ⟨h1, h2, h3, _, _⟩
    exact ⟨h1, h2, h3⟩

theorem alpha_plain : ∀ c ∈ asciiLetters,
    netlocEnd c = false ∧ forbiddenHostChar c = false ∧ c ≠ ':' ∧ c ≠ '#' ∧ c ≠ '?' ∧
      c ≠ '/' := by
  decide

theorem isAlphaChar_mem (c : Char) (h : isAlphaChar c = true) : c ∈ asciiLetters := by
  unfold isAlphaChar at h
  exact of_decide_eq_true h

theorem digit_plain : ∀ c ∈ digitChars,
    netlocEnd c = false ∧ forbiddenHostChar c = false ∧ c ≠ ':' ∧ c ≠ '#' ∧ c ≠ '?' := by
  decide

theorem isDigitChar_mem (c : Char) (h : isDigitChar c = true) : c ∈ digitChars := by
  unfold isDigitChar at h
  exact of_decide_eq_true h

theorem digitsToNat_append (l : List Char) (c : Char) :
    digitsToNat (l ++ [c]) = 10 * digitsToNat l + digitVal c := by
  unfold digitsToNat
  rw [List.foldl_append]
  simp [Nat.mul_comm]

theorem digitChar_spec (d : Nat) (h : d < 10) :
    digitVal (digitChar d) = d ∧ digitChar d ∈ digitChars := by
  interval_cases d <;> exact ⟨by decide, by decide⟩

/-- Correctness of the fueled decimal rendering. -/
theorem natDigitsAux_spec : ∀ (fuel n : Nat), n < fuel →
    natDigitsAux fuel n ≠ [] ∧ (∀ c ∈ natDigitsAux fuel n, c ∈ digitChars) ∧
      digitsToNat (natDigitsAux fuel n) = n := by
  intro fuel
  induction fuel with
  | zero => intro n hn; omega
  | succ f ih =>
    intro n hn
    by_cases h10 : n < 10
    · rw [natDigitsAux, if_pos h10]
      rcases digitChar_spec n h10 with ⟨h1, h2⟩
      refine ⟨by simp, ?_, ?_⟩
      · intro c hc
        rw [List.mem_singleton] at hc
        subst hc
        exact h2
      · simp [digitsToNat, h1]
    · rw [natDigitsAux, if_neg h10]
      have hdiv : n / 10 < f := by omega
      rcases ih (n / 10) hdiv with ⟨h1, h2, h3⟩
      have hmod : n % 10 < 10 := Nat.mod_lt _ (by omega)
      rcases digitChar_spec (n % 10) hmod with ⟨h4, h5⟩
      refine ⟨by simp, ?_, ?_⟩
      · intro c hc
        rcases List.mem_append.mp hc with hc | hc
        · exact h2 c hc
        · rw [List.mem_singleton] at hc; subst hc; exact h5
      · rw [digitsToNat_append, h3, h4]
        omega

theorem natDigits_spec (n : Nat) :
    natDigits n ≠ [] ∧ (∀ c ∈ natDigits n, c ∈ digitChars) ∧
      digitsToNat (natDigits n) = n :=
  natDigitsAux_spec (n + 1) n (Nat.lt_succ_self n)

/-! ## C8 — list splitting facts -/

theorem mem_takeWhile (p : Char → Bool) :
    ∀ (l : List Char) (x : Char), x ∈ l.takeWhile p → x ∈ l ∧ p x = true := by
  intro l
  induction l with
  | nil => intro x hx; simp [List.takeWhile] at hx
  | cons c cs ih =>
    intro x hx
    rw [List.takeWhile_cons] at hx
    by_cases hc : p c = true
    · rw [if_pos hc] at hx
      rw [List.mem_cons] at hx
      rcases hx with rfl | hx
      · exact ⟨List.mem_cons_self _ _, hc⟩
      · exact ⟨List.mem_cons_of_mem _ (ih x hx).1, (ih x hx).2⟩
    · rw [if_neg hc] at hx
      simp at hx

theorem takeWhile_append_all (p : Char → Bool) :
    ∀ (l₁ l₂ : List Char), (∀ c ∈ l₁, p c = true) →
      (l₁ ++ l₂).takeWhile p = l₁ ++ l₂.takeWhile p ∧
      (l₁ ++ l₂).dropWhile p = l₂.dropWhile p := by
  intro l₁
  induction l₁ with
  | nil => intro l₂ _; simp
  | cons c cs ih =>
    intro l₂ hall
    have hc : p c = true := hall c (List.mem_cons_self _ _)
    have hcs : ∀ x ∈ cs, p x = true := fun x hx => hall x (List.mem_cons_of_mem _ hx)
    rcases ih l₂ hcs with ⟨h1, h2⟩
    constructor
    · rw [List.cons_append, List.takeWhile_cons, if_pos hc, h1, List.cons_append]
    · rw [List.cons_append, List.dropWhile_cons, if_pos hc, h2]

theorem takeWhile_nil_of_head (p : Char → Bool) (c : Char) (l : List Char)
    (hc : p c = false) : (c :: l).takeWhile p = [] := by
  rw [List.takeWhile_cons, if_neg (by simp [hc])]

theorem dropWhile_self_of_head (p : Char → Bool) (c : Char) (l : List Char)
    (hc : p c = false) : (c :: l).dropWhile p = c :: l := by
  rw [List.dropWhile_cons, if_neg (by simp [hc])]

theorem dropWhile_head_false (p : Char → Bool) :
    ∀ (l : List Char) (c : Char) (cs : List Char),
      l.dropWhile p = c :: cs → p c = false := by
  intro l
  induction l with
  | nil => intro c cs h; simp at h
  | cons a l ih =>
    intro c cs h
    rw [List.dropWhile_cons] at h
    by_cases ha : p a = true
    · rw [if_pos ha] at h
      exact ih c cs h
    · rw [if_neg ha] at h
      rw [List.cons.injEq] at h
      rw [← h.1]
      exact (Bool.not_eq_true _).mp ha

/-! ## C8 — the parse/render round trip -/


theorem renderHostPort_plain (host : List Char) (port : Option Nat)
    (hh2 : ∀ c ∈ host, netlocEnd c = false ∧ forbiddenHostChar c = false ∧ c ≠ ':') :
    ∀ c ∈ renderHostPort host port, netlocEnd c = false ∧ forbiddenHostChar c = false := by
  intro c hc
  rcases port with _ | pt
  · exact ⟨(hh2 c hc).1, (hh2 c hc).2.1⟩
  · unfold renderHostPort at hc
    rcases List.mem_append.mp hc with hc | hc
    · exact ⟨(hh2 c hc).1, (hh2 c hc).2.1⟩
    · rw [List.mem_cons] at hc
      rcases hc with rfl | hc
      · exact ⟨by decide, by decide⟩
      · have hd := (natDigits_spec pt).2.1 c hc
        rcases digit_plain c hd with ⟨h1, h2, _, _, _⟩
        exact ⟨h1, h2⟩

theorem parseUrl_renderNorm (scheme host : List Char) (port : Option Nat)
    (path query : List Char)
    (hs1 : scheme ≠ []) (hs2 : ∀ c ∈ scheme, isAlphaChar c = true)
    (hh1 : host ≠ [])
    (hh2 : ∀ c ∈ host, netlocEnd c = false ∧ forbiddenHostChar c = false ∧ c ≠ ':')
    (hp : ∀ pt ∈ port, pt ≤ 65535)
    (hpa : ∀ c ∈ path, c ≠ '#' ∧ c ≠ '?')
    (hpb : path = [] ∨ ∃ t, path = '/' :: t)
    (hq : ∀ c ∈ query, c ≠ '#') :
    parseUrl (renderNorm scheme host port path query)
      = some ⟨lowerList scheme, host, port, path, query, []⟩ := by
  have hs3 : ':' ∉ scheme := fun hmem =>
    (alpha_plain _ (isAlphaChar_mem _ (hs2 _ hmem))).2.2.1 rfl
  have hassoc : renderNorm scheme host port path query
      = scheme ++ ':' :: ('/' :: '/' ::
          (renderHostPort host port ++ (path ++ renderQuery query))) := by
    unfold renderNorm
    simp [List.append_assoc]
  have hallrhp := renderHostPort_plain host port hh2
  -- the netloc is exactly the rendered host:port
  have hsplit := takeWhile_append_all (fun c => !(netlocEnd c))
    (renderHostPort host port) (path ++ renderQuery query)
    (fun c hc => by simp [(hallrhp c hc).1])
  have htail : (path ++ renderQuery query).takeWhile (fun c => !(netlocEnd c)) = [] ∧
      (path ++ renderQuery query).dropWhile (fun c => !(netlocEnd c))
        = path ++ renderQuery query := by
    rcases hpb with rfl | ⟨t, rfl⟩
    · rcases hq2 : query with _ | ⟨qc, qs⟩
      · simp [renderQuery]
      · rw [← hq2]
        have : renderQuery query = '?' :: query := by
          unfold renderQuery
          rw [if_neg (by simp [hq2])]
        rw [List.nil_append, this]
        constructor
        · exact takeWhile_nil_of_head _ _ _ (by decide)
        · exact dropWhile_self_of_head _ _ _ (by decide)
    · constructor
      · exact takeWhile_nil_of_head _ _ _ (by decide)
      · exact dropWhile_self_of_head _ _ _ (by decide)
  have htake : (renderHostPort host port ++ (path ++ renderQuery query)).takeWhile
      (fun c => !(netlocEnd c)) = renderHostPort host port := by
    rw [hsplit.1, htail.1, List.append_nil]
  have hdrop : (renderHostPort host port ++ (path ++ renderQuery query)).dropWhile
      (fun c => !(netlocEnd c)) = path ++ renderQuery query := by
    rw [hsplit.2, htail.2]
  have hnoforb : (renderHostPort host port).any forbiddenHostChar = false := by
    rw [List.any_eq_false]
    intro c hc
    simp [(hallrhp c hc).2]
  have hhost3 : ':' ∉ host := fun hmem => (hh2 _ hmem).2.2 rfl
  -- host/port split of the netloc
  have hsplitnl : splitFirst ':' (renderHostPort host port)
      = (host, Option.map natDigits port) := by
    rcases port with _ | pt
    · exact splitFirst_of_not_mem ':' host hhost3
    · exact splitFirst_append ':' host (natDigits pt) hhost3
  -- no fragment anywhere after the netloc
  have hnofrag : '#' ∉ path ++ renderQuery query := by
    intro hmem
    rcases List.mem_append.mp hmem with hm | hm
    · exact (hpa _ hm).1 rfl
    · unfold renderQuery at hm
      by_cases hq2 : query = []
      · rw [if_pos hq2] at hm
        simp at hm
      · rw [if_neg hq2] at hm
        rw [List.mem_cons] at hm
        rcases hm with hm | hm
        · exact absurd hm.symm (by decide)
        · exact hq _ hm rfl
  have hnoq : '?' ∉ path := fun hmem => (hpa _ hmem).2 rfl
  have hqsplit : splitFirst '?' (path ++ renderQuery query)
      = (path, if query = [] then none else some query) := by
    by_cases hq2 : query = []
    · subst hq2
      rw [if_pos rfl, show renderQuery [] = [] from rfl, List.append_nil]
      exact splitFirst_of_not_mem '?' path hnoq
    · rw [if_neg hq2]
      have hr : renderQuery query = '?' :: query := by
        unfold renderQuery
        rw [if_neg hq2]
      rw [hr]
      exact splitFirst_append '?' path query hnoq
  -- assemble
  rw [hassoc]
  simp only [parseUrl]
  rw [splitFirst_append ':' scheme _ hs3]
  simp only [if_neg hs1]
  rw [if_neg (by simp [List.all_eq_true.mpr hs2])]
  simp only [htake, hdrop, hnoforb, Bool.false_eq_true, if_false, hsplitnl]
  simp only [if_neg hh1]
  rw [splitFirst_of_not_mem '#' _ hnofrag]
  simp only [hqsplit]
  rcases port with _ | pt
  · simp only [Option.map_none']
    by_cases hq2 : query = []
    · subst hq2
      simp
    · simp only [if_neg hq2]
  · simp only [Option.map_some']
    have hpp : parsePort (natDigits pt) = some (some pt) := by
      rcases natDigits_spec pt with ⟨h1, h2, h3⟩
      unfold parsePort
      rw [if_neg h1]
      rw [if_pos ⟨List.all_eq_true.mpr (fun c hc => decide_eq_true (h2 c hc)), by
        rw [h3]; exact hp pt rfl⟩]
      rw [h3]
    rw [hpp]
    by_cases hq2 : query = []
    · subst hq2
      simp
    · simp only [if_neg hq2]

/-- Members of the part after the separator belong to the original list. -/
theorem mem_of_splitFirst_snd (sep : Char) :
    ∀ (l tail : List Char), (splitFirst sep l).2 = some tail →
      ∀ c ∈ tail, c ∈ l := by
  intro l
  induction l with
  | nil => intro tail h; simp [splitFirst] at h
  | cons a l ih =>
    intro tail h c hc
    rw [splitFirst] at h
    by_cases ha : a = sep
    · rw [if_pos ha] at h
      simp only [Option.some_inj] at h
      subst h
      exact List.mem_cons_of_mem _ hc
    · rw [if_neg ha] at h
      exact List.mem_cons_of_mem _ (ih tail h c hc)

theorem parsePort_bound (ds : List Char) (po : Option Nat)
    (h : parsePort ds = some po) : ∀ pt ∈ po, pt ≤ 65535 := by
  unfold parsePort at h
  split at h
  · rw [Option.some_inj] at h
    subst h
    intro pt hpt
    simp at hpt
  · split at h
    · rw [Option.some_inj] at h
      subst h
      intro pt hpt
      rw [Option.mem_def, Option.some_inj] at hpt
      subst hpt
      next hcond => exact hcond.2
    · simp at h

/-- Characters of the query component extracted at `sep` lie in the split
list. -/
theorem mem_splitFirst_sndD (sep : Char) (L : List Char) (c : Char)
    (hc : c ∈ (match (splitFirst sep L).2 with
      | none => ([] : List Char)
      | some q => q)) : c ∈ L := by
  rcases hq : (splitFirst sep L).2 with _ | q
  · rw [hq] at hc
    simp at hc
  · rw [hq] at hc
    exact mem_of_splitFirst_snd sep L q hq c hc

/-- Components produced by a successful parse are well-shaped: letters-only
lower-case scheme, delimiter-free nonempty host, bounded port,
delimiter-free path starting with `/` (or empty), `#`-free query. -/
theorem parseUrl_props (l : List Char) (p : UrlParts) (h : parseUrl l = some p) :
    p.scheme ≠ [] ∧ (∀ c ∈ p.scheme, isAlphaChar c = true) ∧
    lowerList p.scheme = p.scheme ∧
    p.host ≠ [] ∧
    (∀ c ∈ p.host, netlocEnd c = false ∧ forbiddenHostChar c = false ∧ c ≠ ':') ∧
    (∀ pt ∈ p.port, pt ≤ 65535) ∧
    (∀ c ∈ p.path, c ≠ '#' ∧ c ≠ '?') ∧ (p.path = [] ∨ ∃ t, p.path = '/' :: t) ∧
    (∀ c ∈ p.query, c ≠ '#') := by
  simp only [parseUrl] at h
  split at h
  · simp at h
  next schemeRaw rest heqsp =>
    split at h
    · simp at h
    next hne =>
      split at h
      · simp at h
      next halpha =>
        split at h
        case h_2 => simp at h
        case _ rz rest2 =>
          split at h
          · simp at h
          next hforb =>
            split at h
            · simp at h
            next hhost =>
              split at h
              · simp at h
              next port hport =>
                rw [Option.some_inj] at h
                subst h
                rw [not_not] at halpha
                have halpha2 := List.all_eq_true.mp halpha
                set netloc := rest2.takeWhile (fun c => !(netlocEnd c)) with hnl
                set after := rest2.dropWhile (fun c => !(netlocEnd c)) with haf
                refine ⟨?_, ?_, ?_, ?_, ?_, ?_, ?_, ?_, ?_⟩
                · dsimp only
                  intro hmap
                  exact hne (List.map_eq_nil_iff.mp hmap)
                · dsimp only
                  intro c hc
                  rcases List.mem_map.mp hc with ⟨d, hd, rfl⟩
                  exact lowerChar_alpha d (halpha2 d hd)
                · dsimp only
                  exact lowerList_idem schemeRaw
                · dsimp only
                  exact hhost
                · dsimp only
                  intro c hc
                  rcases mem_splitFirst_fst ':' netloc c hc with ⟨hcn, hcne⟩
                  rcases mem_takeWhile _ rest2 c (hnl ▸ hcn) with ⟨_, hcp⟩
                  have hcp2 : (!(netlocEnd c)) = true := hcp
                  have hnend : netlocEnd c = false := by
                    rcases hb : netlocEnd c
                    · rfl
                    · rw [hb] at hcp2
                      simp at hcp2
                  have hforb2 : forbiddenHostChar c = false := by
                    rcases hb : forbiddenHostChar c
                    · rfl
                    · exfalso
                      exact hforb (List.any_eq_true.mpr ⟨c, hcn, hb⟩)
                  exact ⟨hnend, hforb2, hcne⟩
                · dsimp only
                  revert hport
                  split
                  · intro hport
                    rw [Option.some_inj] at hport
                    subst hport
                    intro pt hpt
                    simp at hpt
                  · intro hport
                    exact parsePort_bound _ _ hport
                · dsimp only
                  intro c hc
                  rcases mem_splitFirst_fst '?' _ c hc with ⟨hcb, hcq⟩
                  rcases mem_splitFirst_fst '#' after c hcb with ⟨_, hcf⟩
                  exact ⟨hcf, hcq⟩
                · dsimp only
                  rcases hdw : after with _ | ⟨c, cs⟩
                  · left
                    simp [splitFirst]
                  · have hcp2 : (!(netlocEnd c)) = false :=
                      dropWhile_head_false _ rest2 c cs (haf ▸ hdw)
                    have hcnl : netlocEnd c = true := by
                      rcases hb : netlocEnd c
                      · rw [hb] at hcp2
                        simp at hcp2
                      · rfl
                    have hc3 : c = '/' ∨ c = '?' ∨ c = '#' := by
                      unfold netlocEnd at hcnl
                      rcases Bool.or_eq_true_iff.mp hcnl with h1 | h1
                      · rcases Bool.or_eq_true_iff.mp h1 with h2 | h2
                        · exact Or.inl (of_decide_eq_true h2)
                        · exact Or.inr (Or.inl (of_decide_eq_true h2))
                      · exact Or.inr (Or.inr (of_decide_eq_true h1))
                    rcases hc3 with rfl | rfl | rfl
                    · right
                      simp only [splitFirst, if_neg (by decide : ¬ ('/' : Char) = '#'),
                        if_neg (by decide : ¬ ('/' : Char) = '?')]
                      exact ⟨_, rfl⟩
                    · left
                      simp [splitFirst]
                    · left
                      simp [splitFirst]
                · dsimp only
                  intro c hc
                  exact (mem_splitFirst_fst '#' after c
                    (mem_splitFirst_sndD '?' ((splitFirst '#' after).1) c hc)).2

/-! ## C8 — canonical form and idempotence of the normalizer -/


/-- Every successful `_norm_url` output is a canonical rendering of
well-formed components. -/
theorem normUrlL_canonical (base href w : List Char)
    (h : normUrlL base href = some w) :
    ∃ s hs po pa q, NormCanon s hs po pa q ∧ w = renderNorm s hs po pa q := by
  simp only [normUrlL] at h
  split at h
  · simp at h
  split at h
  · simp at h
  next p hp =>
    split at h
    · simp at h
    next hlw =>
      rw [not_not] at hlw
      obtain ⟨hs1, hs2, hs3, hh1, hh2, hpo, hpa, hpb, hq⟩ := parseUrl_props _ _ hp
      have hhost : lowerList p.host ≠ [] := fun hm => hh1 (List.map_eq_nil_iff.mp hm)
      have hplain : ∀ c ∈ lowerList p.host,
          netlocEnd c = false ∧ forbiddenHostChar c = false ∧ c ≠ ':' := by
        intro c hc
        rcases List.mem_map.mp hc with ⟨d, hd, rfl⟩
        exact lowerChar_plain d (hh2 d hd)
      have hlh : lowerList (lowerList p.host) = lowerList p.host := lowerList_idem _
      split at h
      next pt hpt =>
        split at h
        next h0 =>
          split at h
          next hdef =>
            rw [Option.some_inj] at h
            subst h
            exact ⟨p.scheme, lowerList p.host, none, p.path, p.query,
              ⟨hs1, hs2, hs3, hlw, hhost, hplain, hlh,
                fun x hx => by simp at hx, hpa, hpb, hq⟩, rfl⟩
          next hdef =>
            rw [Option.some_inj] at h
            subst h
            refine ⟨p.scheme, lowerList p.host, some pt, p.path, p.query,
              ⟨hs1, hs2, hs3, hlw, hhost, hplain, hlh, ?_, hpa, hpb, hq⟩, rfl⟩
            intro x hx
            rw [Option.mem_def, Option.some_inj] at hx
            subst hx
            exact ⟨hpo pt (Option.mem_def.mpr hpt), h0, hdef⟩
        next h0 =>
          rw [Option.some_inj] at h
          subst h
          exact ⟨p.scheme, lowerList p.host, none, p.path, p.query,
            ⟨hs1, hs2, hs3, hlw, hhost, hplain, hlh,
              fun x hx => by simp at hx, hpa, hpb, hq⟩, rfl⟩
      next hpt =>
        rw [Option.some_inj] at h
        subst h
        exact ⟨p.scheme, lowerList p.host, none, p.path, p.query,
          ⟨hs1, hs2, hs3, hlw, hhost, hplain, hlh,
            fun x hx => by simp at hx, hpa, hpb, hq⟩, rfl⟩

/-- `urlunsplit` output with no fragment coincides with the canonical
rendering. -/
theorem renderParts_renderNorm (s hs : List Char) (po : Option Nat)
    (pa q : List Char) :
    renderParts ⟨s, hs, po, pa, q, []⟩ = renderNorm s hs po pa q := by
  unfold renderParts renderNorm renderFrag
  simp

/-- A canonical rendering contains no `#`. -/
theorem renderNorm_no_hash (s hs : List Char) (po : Option Nat)
    (pa q : List Char)
    (hs2 : ∀ c ∈ s, isAlphaChar c = true)
    (hh2 : ∀ c ∈ hs, netlocEnd c = false ∧ forbiddenHostChar c = false ∧ c ≠ ':')
    (hpa : ∀ c ∈ pa, c ≠ '#' ∧ c ≠ '?')
    (hq : ∀ c ∈ q, c ≠ '#') :
    '#' ∉ renderNorm s hs po pa q := by
  intro hmem
  unfold renderNorm at hmem
  rcases List.mem_append.mp hmem with hm | hm
  · rcases List.mem_append.mp hm with hm | hm
    · rcases List.mem_append.mp hm with hm | hm
      · exact absurd (hs2 _ hm) (by decide)
      · rw [List.mem_cons] at hm
        rcases hm with hm | hm
        · exact absurd hm.symm (by decide)
        rw [List.mem_cons] at hm
        rcases hm with hm | hm
        · exact absurd hm.symm (by decide)
        rw [List.mem_cons] at hm
        rcases hm with hm | hm
        · exact absurd hm.symm (by decide)
        · have := (renderHostPort_plain hs po hh2 _ hm).1
          simp [netlocEnd] at this
    · exact (hpa _ hm).1 rfl
  · unfold renderQuery at hm
    by_cases hq2 : q = []
    · rw [if_pos hq2] at hm
      simp at hm
    · rw [if_neg hq2] at hm
      rw [List.mem_cons] at hm
      rcases hm with hm | hm
      · exact absurd hm.symm (by decide)
      · exact hq _ hm rfl

/-- Joining a canonical rendering against itself leaves it unchanged. -/
theorem urljoin_renderNorm (s hs : List Char) (po : Option Nat) (pa q : List Char)
    (hc : NormCanon s hs po pa q) :
    urljoin (renderNorm s hs po pa q) (renderNorm s hs po pa q)
      = renderNorm s hs po pa q := by
  obtain ⟨hs1, hs2, hs3, hlw, hh1, hh2, hlh, hpo, hpa, hpb, hq⟩ := hc
  have hs4 : ':' ∉ s := fun hm =>
    (alpha_plain _ (isAlphaChar_mem _ (hs2 _ hm))).2.2.1 rfl
  have hpw : parseUrl (renderNorm s hs po pa q) = some ⟨s, hs, po, pa, q, []⟩ := by
    have hbase := parseUrl_renderNorm s hs po pa q hs1 hs2 hh1 hh2
      (fun pt hpt => (hpo pt hpt).1) hpa hpb hq
    rw [hs3] at hbase
    exact hbase
  have hwne : renderNorm s hs po pa q ≠ [] := by
    unfold renderNorm
    rcases s with _ | ⟨c, cs⟩ <;> simp
  have hassoc : renderNorm s hs po pa q
      = s ++ ':' :: ('/' :: '/' :: (renderHostPort hs po ++ (pa ++ renderQuery q))) := by
    unfold renderNorm
    simp [List.append_assoc]
  have hsp : splitFirst ':' (renderNorm s hs po pa q)
      = (s, some ('/' :: '/' :: (renderHostPort hs po ++ (pa ++ renderQuery q)))) := by
    rw [hassoc]
    exact splitFirst_append ':' s _ hs4
  simp only [urljoin]
  rw [if_neg hwne, if_neg hwne, hsp, hpw]
  dsimp only
  rw [if_pos ⟨hs1, List.all_eq_true.mpr hs2⟩, hs3]
  dsimp only
  rw [if_neg (by simp : ¬ s ≠ s)]
  exact renderParts_renderNorm s hs po pa q

/-- Normalizing a canonical rendering returns it unchanged. -/
theorem normUrlL_fix (s hs : List Char) (po : Option Nat) (pa q : List Char)
    (hc : NormCanon s hs po pa q) :
    normUrlL (renderNorm s hs po pa q) (renderNorm s hs po pa q)
      = some (renderNorm s hs po pa q) := by
  obtain ⟨hs1, hs2, hs3, hlw, hh1, hh2, hlh, hpo, hpa, hpb, hq⟩ := hc
  have hpw : parseUrl (renderNorm s hs po pa q) = some ⟨s, hs, po, pa, q, []⟩ := by
    have hbase := parseUrl_renderNorm s hs po pa q hs1 hs2 hh1 hh2
      (fun pt hpt => (hpo pt hpt).1) hpa hpb hq
    rw [hs3] at hbase
    exact hbase
  have hwne : renderNorm s hs po pa q ≠ [] := by
    unfold renderNorm
    rcases s with _ | ⟨c, cs⟩ <;> simp
  have hnohash := renderNorm_no_hash s hs po pa q hs2 hh2 hpa hq
  simp only [normUrlL]
  rw [if_neg hwne,
    urljoin_renderNorm s hs po pa q
      ⟨hs1, hs2, hs3, hlw, hh1, hh2, hlh, hpo, hpa, hpb, hq⟩,
    splitFirst_of_not_mem '#' _ hnohash]
  simp only [hpw]
  rw [if_neg (not_not_intro hlw), hlh]
  rcases po with _ | pt
  · rfl
  · obtain ⟨hb, h0, hdef⟩ := hpo pt rfl
    simp only [if_pos h0, if_neg hdef]
    rfl

/-- C8: the URL normalizer `_norm_url` is idempotent on its successful
outputs — whenever `normalize u = some v`, normalizing `v` again returns
`some v` unchanged, i.e. `normalize (normalize u) = normalize u` for every
well-formed URL `u`. -/
theorem c8_idempotent (u v : String) (h : normalize u = some v) :
    normalize v = some v := by
  unfold normalize norm_url at h ⊢
  rcases hw : normUrlL u.toList u.toList with _ | w
  · rw [hw] at h
    simp at h
  · rw [hw, Option.map_some'] at h
    rw [Option.some_inj] at h
    subst h
    rcases normUrlL_canonical _ _ _ hw with ⟨s, hsx, po, pa, q, hcanon, rfl⟩
    have hlist : (String.mk (renderNorm s hsx po pa q)).toList
        = renderNorm s hsx po pa q := rfl
    rw [hlist, normUrlL_fix s hsx po pa q hcanon, Option.map_some']

/-- A concrete instance of the idempotence theorem: normalizing
`HTTP://Example.COM:80/a?b#c` yields `http://example.com/a?b`, which
normalizes to itself. -/
theorem c8_witness :
    normalize ("HTTP://Example.COM:80/a?b#c") = some ("http://example.com/a?b") ∧
    normalize ("http://example.com/a?b") = some ("http://example.com/a?b") :=
  ⟨by decide, c8_idempotent ("HTTP://Example.COM:80/a?b#c")
    ("http://example.com/a?b") (by decide)⟩

/-! ## C4 — termination at the page cap -/










/-- One loop iteration stops exactly on an empty frontier or a reached cap. -/
theorem crawlStep_stop_iff (cfg : CrawlConfig) (site : Site) (st : CrawlState) :
    crawlStep cfg site st = .stop ↔ (st.q = [] ∨ cfg.max_pages ≤ st.fetched) := by
  constructor
  · intro h
    rcases hq : st.q with _ | ⟨url, rest⟩
    · exact Or.inl rfl
    · by_cases hcap : cfg.max_pages ≤ st.fetched
      · exact Or.inr hcap
      · exfalso
        simp only [crawlStep, hq] at h
        rw [if_neg hcap] at h
        split at h
        · simp at h
        · split at h
          · simp at h
          · split at h
            · split at h
              · simp at h
              · simp at h
            · simp at h
  · intro h
    rcases h with h | h
    · simp [crawlStep, h]
    · rcases hq : st.q with _ | ⟨url, rest⟩
      · simp [crawlStep, hq]
      · simp [crawlStep, hq, h]

/-- A continuing iteration was below the cap and increments the fetch
counter by at most one. -/
theorem crawlStep_next_le (cfg : CrawlConfig) (site : Site) (st st' : CrawlState)
    (h : crawlStep cfg site st = .next st') :
    st.fetched < cfg.max_pages ∧ st'.fetched ≤ st.fetched + 1 := by
  obtain ⟨url, rest, hq, hcap, hbr⟩ := crawlStep_shape cfg site st st' (Or.inl h)
  refine ⟨hcap, ?_⟩
  rcases hbr with ⟨h1, h2, rfl⟩ | ⟨hro, stm, hst, hq2, hseen, henq, hflog, hfet, hrest⟩
  · exact Nat.le_succ _
  · rcases hst with rfl | ⟨r, hr1, hr2, rfl⟩
    · omega
    · rw [(enqueueLinks_bookkeeping cfg url r.hrefs stm).2.2.1]
      omega

/-- On normal exit the loop's final state has an empty frontier or a
reached cap, and the fetch counter never exceeds the cap it started
below. -/
theorem crawlLoop_done_shape (cfg : CrawlConfig) (site : Site) (fuel : Nat)
    (st st' : CrawlState) (h : crawlLoop cfg site fuel st = .done st') :
    (st'.q = [] ∨ cfg.max_pages ≤ st'.fetched) ∧
    (st.fetched ≤ cfg.max_pages → st'.fetched ≤ cfg.max_pages) := by
  induction fuel generalizing st with
  | zero => simp [crawlLoop] at h
  | succ n ih =>
    cases hs : crawlStep cfg site st with
    | stop =>
      rw [crawlLoop, hs] at h
      have hst : st = st' := by
        injection h
      subst hst
      exact ⟨(crawlStep_stop_iff cfg site st).mp hs, fun hh => hh⟩
    | fail st1 =>
      rw [crawlLoop, hs] at h
      exact absurd h (by simp)
    | next st1 =>
      rw [crawlLoop, hs] at h
      rcases crawlStep_next_le cfg site st st1 hs with ⟨hlt, hle⟩
      rcases ih st1 h with ⟨h1, h2⟩
      exact ⟨h1, fun _ => h2 (by omega)⟩

/-- C4: corrected termination behaviour of the main crawl loop.  A normal
exit happens exactly when the frontier queue is empty or the count of
fetched pages has reached `max_pages`, whichever comes first: any state
satisfying either condition stops the loop immediately, on exit one of the
two holds, and a crawl that starts with zero fetches never exceeds the cap
— so an exit with a nonempty frontier has performed exactly `max_pages`
fetches.  (The claim's "more than k reachable pages force exactly k
fetches" is false — see the counterexample — because domain policy and
fetch failures can starve the frontier; an uncaught disk-write error
additionally aborts the loop outside both conditions.) -/
theorem c4_cap_termination (cfg : CrawlConfig) (site : Site) :
    (∀ fuel st st', crawlLoop cfg site fuel st = CrawlOutcome.done st' →
        (st'.q = [] ∨ cfg.max_pages ≤ st'.fetched) ∧
        (st.fetched ≤ cfg.max_pages → st'.fetched ≤ cfg.max_pages) ∧
        (st.fetched = 0 → st'.q ≠ [] → st'.fetched = cfg.max_pages)) ∧
    (∀ fuel st, st.q = [] ∨ cfg.max_pages ≤ st.fetched →
        crawlLoop cfg site (fuel + 1) st = CrawlOutcome.done st) := by
  constructor
  · intro fuel st st' h
    rcases crawlLoop_done_shape cfg site fuel st st' h with ⟨h1, h2⟩
    refine ⟨h1, h2, fun h0 hq => ?_⟩
    have hge : cfg.max_pages ≤ st'.fetched := h1.resolve_left hq
    have hle : st'.fetched ≤ cfg.max_pages := h2 (by omega)
    omega
  · intro fuel st h
    rw [crawlLoop, (crawlStep_stop_iff cfg site st).mpr h]

/-- A concrete cap-hitting run: starting from zero fetches, the crawl over
`c4wSite` exits normally with a nonempty frontier, and the theorem forces
its fetch count to equal `max_pages` (= 2). -/
theorem c4_witness :
    c4wInit.fetched = 0 ∧ c4wFinal.q ≠ [] ∧ c4wFinal.fetched = c4Cfg.max_pages :=
  ⟨rfl, by decide,
    ((c4_cap_termination c4Cfg c4wSite).1 10 c4wInit c4wFinal rfl).2.2 rfl
      (by decide)⟩

/-- C4 counterexample: a site graph with four reachable pages and
`max_pages = 2`, where the crawl nevertheless terminates normally after a
single fetch — the allow-list starves the frontier, so "more than k
reachable pages" does not force k fetches. -/
theorem c4_counterexample :
    c4Cfg.max_pages = 2 ∧
    (∃ l : List String, l.Nodup ∧ c4Cfg.max_pages < l.length ∧
      ∀ u ∈ l, SiteReachable c4cSite [("http://a.com/")] u) ∧
    crawlLoop c4Cfg c4cSite 5 c4cInit = CrawlOutcome.done c4cFinal ∧
    c4cFinal.fetched = 1 := by
  have hseed : SiteReachable c4cSite [("http://a.com/")] ("http://a.com/") :=
    SiteReachable.seed (by decide)
  refine ⟨rfl,
    ⟨[("http://a.com/"), ("http://b.com/1"), ("http://b.com/2"), ("http://b.com/3")],
      by decide, by decide, ?_⟩, rfl, by decide⟩
  intro u hu
  simp only [List.mem_cons, List.not_mem_nil, or_false] at hu
  rcases hu with rfl | rfl | rfl | rfl
  · exact hseed
  · exact SiteReachable.step hseed (by decide)
  · exact SiteReachable.step hseed (by decide)
  · exact SiteReachable.step hseed (by decide)

end Ragchat
